import Mathlib

/-!
Verification of the LogicGates-Emulator core: a shallow embedding of the
circuit data model (`src/types.ts`), the signal-propagation engine
(`src/services/circuitEngine.ts`), the Quine-McCluskey minimizer and the
circuit synthesizer (`src/services/quineMcCluskey.ts`), and the
project-loading handler (App component).  JS arrays become `List`, JS
objects become structures, JS `Map`/`Set` become association/dedup lists
with the same first/last-wins semantics, and the `while` loops (which have
explicit iteration caps or provably bounded generation counts) become
fuel-indexed recursions.
-/

set_option maxRecDepth 10000
set_option maxHeartbeats 1000000

namespace LG

/-- `GateType` enum from `src/types.ts`. -/
inductive GateType where
  | AND
  | OR
  | NOT
  | NAND
  | NOR
  | XOR
  | INPUT_SWITCH
  | OUTPUT_LAMP
  | CLOCK
deriving DecidableEq, Repr

/-- `CircuitNode` record from `src/types.ts`.  Geometry fields are kept
(positions are rationals, standing in for JS numbers; the engine never
reads them and the synthesizer only does ring arithmetic and comparisons
on them). -/
structure CircuitNode where
  id : String
  type : GateType
  position : ℚ × ℚ
  state : Bool
  inputs : List Bool
  width : ℚ
  height : ℚ
  label : String
  color : Option String := none
deriving DecidableEq, Repr

/-- `Wire` record from `src/types.ts`. -/
structure Wire where
  id : String
  sourceNodeId : String
  sourcePinIndex : Nat
  targetNodeId : String
  targetPinIndex : Nat
  state : Bool
  curveType : Option String := none
  color : Option String := none
deriving DecidableEq, Repr

/-- `computeNodeLogic` from `src/services/circuitEngine.ts` (lines 6-38):
output of a single node from its type and an input vector. -/
def computeNodeLogic (node : CircuitNode) (inputStates : List Bool) : Bool :=
  if inputStates.length = 0 ∧ node.type ≠ GateType.INPUT_SWITCH ∧ node.type ≠ GateType.CLOCK then
    false
  else
    match node.type with
    | GateType.AND => inputStates.all (fun s => s)
    | GateType.OR => inputStates.any (fun s => s)
    | GateType.NOT => !(inputStates.getD 0 false)
    | GateType.NAND => !(inputStates.all (fun s => s))
    | GateType.NOR => !(inputStates.any (fun s => s))
    | GateType.XOR => decide ((inputStates.filter (fun s => s)).length % 2 = 1)
    | GateType.INPUT_SWITCH => node.state
    | GateType.CLOCK => node.state
    | GateType.OUTPUT_LAMP => inputStates.getD 0 false

/-- The `nodeMap` lookup of `propagateCircuit`: a JS `Map` built by
inserting every node keyed by id, so on duplicate ids the last node wins.
Implemented as the same left fold. -/
def lookupNode (nodes : List CircuitNode) (nid : String) : Option CircuitNode :=
  nodes.foldl (fun acc n => if n.id = nid then some n else acc) none

/-- Phase 1 of a propagation round (lines 64-74): a wire takes its source
node's current output state; a wire whose source id is not in the map is
skipped and keeps its cached state. -/
def updateWire (nodes : List CircuitNode) (w : Wire) : Wire :=
  match lookupNode nodes w.sourceNodeId with
  | some sourceNode => { w with state := sourceNode.state }
  | none => w

/-- The per-pin wire lookup of phase 2 (lines 88-94): among the wires
targeting the node, the first one with the given pin index. -/
def findWirePin (wires : List Wire) (nid : String) (i : Nat) : Option Wire :=
  (wires.filter (fun w => w.targetNodeId = nid)).find? (fun w => w.targetPinIndex = i)

/-- Phase 2 of a propagation round (lines 76-112): recompute a non-source
node's input vector from the wires (missing pin = floating low `false`);
if and only if the vector changed, store it and recompute the output. -/
def updateNode (wires : List Wire) (node : CircuitNode) : CircuitNode :=
  if node.type = GateType.INPUT_SWITCH ∨ node.type = GateType.CLOCK then node
  else
    let currentInputs := (List.range node.inputs.length).map (fun i =>
      match findWirePin wires node.id i with
      | some w => w.state
      | none => false)
    if currentInputs = node.inputs then node
    else { node with inputs := currentInputs, state := computeNodeLogic node currentInputs }

/-- One round of the `while` loop of `propagateCircuit`: wires then nodes,
plus the `stabilityReached` flag (true when no wire state and no node
output state changed during the round). -/
def roundOnce (nodes : List CircuitNode) (wires : List Wire) :
    List CircuitNode × List Wire × Bool :=
  let wires' := wires.map (updateWire nodes)
  let nodes' := nodes.map (updateNode wires')
  (nodes', wires',
    decide (wires' = wires) && decide (nodes'.map (fun n => n.state) = nodes.map (fun n => n.state)))

/-- The iteration of `propagateCircuit`: run rounds until one is stable or
the fuel (`MAX_ITERATIONS = 20`) is exhausted. -/
def propagateLoop : Nat → List CircuitNode → List Wire → List CircuitNode × List Wire
  | 0, nodes, wires => (nodes, wires)
  | fuel + 1, nodes, wires =>
    match roundOnce nodes wires with
    | (nodes', wires', stable) =>
      if stable then (nodes', wires') else propagateLoop fuel nodes' wires'

/-- `propagateCircuit` from `src/services/circuitEngine.ts` (lines 44-116). -/
def propagateCircuit (nodes : List CircuitNode) (wires : List Wire) :
    List CircuitNode × List Wire :=
  propagateLoop 20 nodes wires

/-- Everything about a node except its mutable state fields. -/
def nodeSkel (n : CircuitNode) :
    String × GateType × (ℚ × ℚ) × ℚ × ℚ × String × Option String × Nat :=
  (n.id, n.type, n.position, n.width, n.height, n.label, n.color, n.inputs.length)

/-- Everything about a wire except its mutable state field. -/
def wireSkel (w : Wire) :
    String × String × Nat × String × Nat × Option String × Option String :=
  (w.id, w.sourceNodeId, w.sourcePinIndex, w.targetNodeId, w.targetPinIndex, w.curveType, w.color)

/-- The §3 invariant for a single node: a non-source element's stored
output state agrees with the per-kind function of its stored inputs. -/
def NodeConsistent (n : CircuitNode) : Prop :=
  n.type ≠ GateType.INPUT_SWITCH → n.type ≠ GateType.CLOCK →
    n.state = computeNodeLogic n n.inputs

instance (n : CircuitNode) : Decidable (NodeConsistent n) := by
  unfold NodeConsistent; infer_instance

/-- A snapshot on which one more evaluation round changes no wire state
and no node state (and recomputes no input vector): exactly the condition
under which the engine's `while` loop exits by stability. -/
def IsRoundStable (nodes : List CircuitNode) (wires : List Wire) : Prop :=
  roundOnce nodes wires = (nodes, wires, true)

instance (nodes : List CircuitNode) (wires : List Wire) :
    Decidable (IsRoundStable nodes wires) := by
  unfold IsRoundStable; infer_instance

/-- Generic first-occurrence deduplication (the insertion behaviour of a
JS `Map`/`Set` key set). -/
def dedupAux {α : Type} [DecidableEq α] (acc : List α) : List α → List α
  | [] => acc.reverse
  | x :: xs => if x ∈ acc then dedupAux acc xs else dedupAux (x :: acc) xs

/-- First-occurrence deduplication of a list. -/
def dedupList {α : Type} [DecidableEq α] (l : List α) : List α :=
  dedupAux [] l

/-- The output state recorded for a node id by the `nodeMap` of
`propagateCircuit` (last node with the id wins). -/
def lookupState (nodes : List CircuitNode) (nid : String) : Option Bool :=
  nodes.foldl (fun acc n => if n.id = nid then some n.state else acc) none

/-- Direct successors of a node id in the wire graph. -/
def wireSuccs (wires : List Wire) (x : String) : List String :=
  wires.filterMap (fun w => if w.sourceNodeId = x then some w.targetNodeId else none)

/-- One closure step of reachability along wires. -/
def reachStep (wires : List Wire) (ids : List String) : List String :=
  dedupList (ids ++ wires.filterMap
    (fun w => if w.sourceNodeId ∈ ids then some w.targetNodeId else none))

/-- Iterated reachability closure. -/
def reachIter (wires : List Wire) : Nat → List String → List String
  | 0, ids => ids
  | k + 1, ids => reachIter wires k (reachStep wires ids)

/-- Acyclicity of a snapshot's wire graph: no node id reaches itself
through one or more wires. -/
def acyclicB (nodes : List CircuitNode) (wires : List Wire) : Bool :=
  nodes.all (fun n =>
    !(decide (n.id ∈ reachIter wires (nodes.length + 1) (wireSuccs wires n.id))))

/-- An acyclic snapshot of an `INPUT_SWITCH` feeding a chain of 25 NOT
gates, after `r` evaluation rounds: every state was consistent with the
switch being off, the switch has just been toggled on, and the resulting
wavefront has crossed the first `r` gates.  Crossing the whole chain
needs 26 rounds — more than the 20-round cap. -/
def chainNodesR (r : Nat) : List CircuitNode :=
  { id := "s", type := GateType.INPUT_SWITCH, position := (0, 0), state := true,
    inputs := [], width := 50, height := 50, label := "SW" } ::
  (List.range 25).map (fun k =>
    { id := "g" ++ toString k, type := GateType.NOT, position := (0, 1),
      state := decide (if k < r then k % 2 = 1 else k % 2 = 0),
      inputs := [decide (if k < r then k % 2 = 0 else k % 2 = 1)],
      width := 100, height := 40, label := "NOT" })

/-- The wires of the 25-NOT chain after `r` evaluation rounds
(see `chainNodesR`). -/
def chainWiresR (r : Nat) : List Wire :=
  { id := "w0", sourceNodeId := "s", sourcePinIndex := 0, targetNodeId := "g0",
    targetPinIndex := 0, state := decide (0 < r) } ::
  (List.range 24).map (fun k =>
    { id := "w" ++ toString (k + 1), sourceNodeId := "g" ++ toString k,
      sourcePinIndex := 0, targetNodeId := "g" ++ toString (k + 1),
      targetPinIndex := 0, state := decide (if k + 1 < r then k % 2 = 1 else k % 2 = 0) })

/-- The freshly-toggled 25-NOT chain snapshot. -/
def chainNodes : List CircuitNode := chainNodesR 0

/-- The wires of the freshly-toggled 25-NOT chain snapshot. -/
def chainWires : List Wire := chainWiresR 0

/-- `Term` from `src/services/quineMcCluskey.ts`: a fixed-length string
over the alphabet {0,1,-}, modeled as its character list. -/
abbrev Term := List Char

/-- `combineTerms` from `src/services/quineMcCluskey.ts` (lines 9-19):
two terms combine when exactly one position differs, and the result
replaces that position by a dash.  Positions are `t1`'s indices as in the
JS loop (an index past `t2`'s end reads as a mismatch, like
`undefined !== char`). -/
def combineTerms (t1 t2 : Term) : Option Term :=
  match (List.range t1.length).filter (fun i => decide (t1.getD i ' ' ≠ t2.getD i ' ')) with
  | [i] => some (t1.set i '-')
  | _ => none

/-- `m.toString(2).padStart(numVars, '0')` (line 28) for in-range
minterms: the low `w` bits of `m`, most significant first. -/
def natToBits : Nat → Nat → List Char
  | 0, _ => []
  | w + 1, m => natToBits w (m / 2) ++ [if m % 2 = 1 then '1' else '0']

/-- Term semantics per spec §4.2 and the glossary: a term covers an
assignment (given as its fixed-width bit string) when every non-dash
position equals the corresponding bit. -/
def termMatches : Term → List Char → Bool
  | [], [] => true
  | [], _ :: _ => false
  | _ :: _, [] => false
  | c :: cs, b :: bs => (decide (c = '-') || decide (c = b)) && termMatches cs bs

/-- All index pairs `i < j` of a list, as ordered element pairs (the
double loop of `solveQuineMcCluskey`, lines 42-51). -/
def pairCombos {α : Type} : List α → List (α × α)
  | [] => []
  | x :: xs => xs.map (fun y => (x, y)) ++ pairCombos xs

/-- The successful combinations of one generation (the `nextTerms` set,
in insertion order before deduplication). -/
def comboResults (cur : List Term) : List Term :=
  (pairCombos cur).filterMap (fun p => combineTerms p.1 p.2)

/-- Membership of `t` in the generation's `usedTerms` set: `t` combined
with something. -/
def usedInCombo (cur : List Term) (t : Term) : Bool :=
  (pairCombos cur).any (fun p =>
    (combineTerms p.1 p.2).isSome && (decide (t = p.1) || decide (t = p.2)))

/-- The `while` loop of `solveQuineMcCluskey` (lines 37-62), one call per
generation; `pis` is the prime-implicant set in insertion order.  Every
term of a generation carries the same number of dashes and a successful
combination adds one, so `numVars + 1` generations always suffice and the
fuel-exhausted branch (which conservatively dumps the remaining
generation) is unreachable from `solveQuineMcCluskey`. -/
def qmLoop : Nat → List Term → List Term → List Term
  | 0, pis, cur => pis ++ cur
  | fuel + 1, pis, cur =>
    if cur.isEmpty then pis
    else
      let next := dedupList (comboResults cur)
      let pis' := pis ++ ((cur.filter (fun t => !(usedInCombo cur t))).filter
        (fun t => !(decide (t ∈ pis))))
      if next.isEmpty then pis' else qmLoop fuel pis' next

/-- JS `Array.prototype.sort()` on (distinct) strings compares
lexicographically by char code: Mathlib's lexicographic order on
`List Char`. -/
def sortTerms (l : List Term) : List Term :=
  List.insertionSort (fun a b => a ≤ b) l

/-- `solveQuineMcCluskey` from `src/services/quineMcCluskey.ts`
(lines 21-68). -/
def solveQuineMcCluskey (numVars : Nat) (minterms : List Nat) : List Term :=
  if minterms.length = 0 then []
  else if minterms.length = 2 ^ numVars then [List.replicate numVars '-']
  else sortTerms (qmLoop (numVars + 1) []
    (dedupList (minterms.map (fun m => natToBits numVars m))))

/-- Shape of a top-level field of a parsed project document as
`handleLoadProject` sees it: absent, an array of the proper records, or
present with a non-array shape (`Array.isArray` returns false). -/
inductive JField (α : Type) where
  | absent
  | array (xs : List α)
  | other
deriving DecidableEq

/-- A parsed project document — the result of a successful `JSON.parse`
in `handleLoadProject` — restricted to the fields the handler inspects.
The camera is `x`, `y`, `zoom`. -/
structure RawDoc where
  nodes : JField CircuitNode
  wires : JField Wire
  camera : Option (ℚ × ℚ × ℚ)

/-- The slice of App component state that `handleLoadProject` touches. -/
structure AppModel where
  nodes : List CircuitNode
  wires : List Wire
  camera : ℚ × ℚ × ℚ
  selectedNodeIds : List String
  selectedWireIds : List String
deriving DecidableEq

/-- `handleLoadProject` from the App component (lines 293-319): accept
the document only when both `nodes` and `wires` are arrays, installing
them (and the camera when present) and clearing the selection; otherwise
(including a parse failure, `parsed = none`) alert the user and leave the
model untouched.  The returned flag is acceptance (`false` paths show the
failure alerts). -/
def handleLoadProject (m : AppModel) (parsed : Option RawDoc) : AppModel × Bool :=
  match parsed with
  | none => (m, false)
  | some d =>
    match d.nodes, d.wires with
    | JField.array ns, JField.array ws =>
      ({ m with nodes := ns, wires := ws, camera := d.camera.getD m.camera,
                selectedNodeIds := [], selectedWireIds := [] }, true)
    | _, _ => (m, false)

/-- A product-term output of the synthesizer (the `TermOutput` interface
of `generateCircuitFromTerms`). -/
structure TermOutput where
  sourceNodeId : String
  sourcePinIndex : Nat
  yPosition : ℚ
deriving DecidableEq, Repr

/-- A literal connection request collected for one term (the
`connections` entries of `generateCircuitFromTerms`). -/
structure LitConn where
  nodeId : String
  pinIndex : Nat
  y : ℚ
deriving DecidableEq, Repr

/-- Placeholder for the JS `inputs[i]` access with `i` out of bounds
(where the JS would dereference `undefined`); theorem C10 characterizes
exactly when it is reached. -/
def dummyNode : CircuitNode :=
  { id := "", type := GateType.INPUT_SWITCH, position := (0, 0), state := false,
    inputs := [], width := 0, height := 0, label := "" }

/-- Step 1 of `generateCircuitFromTerms` (lines 109-126): one
`INPUT_SWITCH` per label in `['A','B','C','D'].slice(0, numVars)`, at
`ROW_Spacing = 80` vertical pitch.  `generateId()` is modeled throughout
by deterministic position-derived names (spec §9 requires only a
collision-free scheme). -/
def genInputNodes (numVars : Nat) (startPos : ℚ × ℚ) : List CircuitNode :=
  ((["A", "B", "C", "D"].take numVars).enum).map (fun p =>
    { id := "in" ++ toString p.1, type := GateType.INPUT_SWITCH,
      position := (startPos.1, startPos.2 + (p.1 : ℚ) * 80), width := 50, height := 50,
      state := false, inputs := [], label := p.2 })

/-- Does some term have a `'0'` at position `i` (the `needsNot` array)? -/
def needsNotIdx (terms : List Term) (i : Nat) : Bool :=
  terms.any (fun t => decide (t.getD i ' ' = '0'))

/-- Step 2 (lines 128-163): one shared NOT gate (plus its feeding wire)
per input index that appears negated in some term; `COL_Spacing = 180`,
NOT config `width = 100`, `height = 40` from `src/constants.ts`. -/
def genNotEntries (terms : List Term) (startPos : ℚ × ℚ)
    (inputs : List CircuitNode) : List (Nat × CircuitNode × Wire) :=
  (inputs.enum).filterMap (fun p =>
    if needsNotIdx terms p.1 then
      some (p.1,
        { id := "not" ++ toString p.1, type := GateType.NOT,
          position := (startPos.1 + 180, p.2.position.2 + 10), width := 100, height := 40,
          state := false, inputs := [false], label := "NOT" },
        { id := "wn" ++ toString p.1, sourceNodeId := p.2.id, sourcePinIndex := 0,
          targetNodeId := "not" ++ toString p.1, targetPinIndex := 0, state := false })
    else none)

/-- The literal connections of one term (lines 180-190): a `'1'` at
position `i` reads `inputs[i]` directly, a `'0'` goes through the NOT
map (skipped when absent), a dash contributes nothing. -/
def termConnections (inputs : List CircuitNode) (notMap : List (Nat × CircuitNode))
    (t : Term) : List LitConn :=
  (List.range t.length).filterMap (fun i =>
    if t.getD i ' ' = '1' then
      some { nodeId := (inputs.getD i dummyNode).id, pinIndex := 0,
             y := (inputs.getD i dummyNode).position.2 }
    else if t.getD i ' ' = '0' then
      (notMap.lookup i).map (fun nn =>
        { nodeId := nn.id, pinIndex := 0, y := nn.position.2 })
    else none)

/-- Step 3 (lines 175-250): per-term product synthesis — skip an
all-dash term when it is not alone, route a single literal directly,
otherwise build an AND gate of matching arity with `PIN_SPACING = 20`,
average-Y placement and collision avoidance against the previous term
output (JS `|| -1000` treats a previous y of exactly 0 as absent). -/
def processTerms (inputs : List CircuitNode) (notMap : List (Nat × CircuitNode))
    (numVars total : Nat) (andColX : ℚ) :
    Nat → List Term → List TermOutput →
    List TermOutput × List CircuitNode × List Wire
  | _, [], acc => (acc, [], [])
  | idx, t :: rest, acc =>
    if t = List.replicate numVars '-' ∧ 1 < total then
      processTerms inputs notMap numVars total andColX (idx + 1) rest acc
    else
      let conns := termConnections inputs notMap t
      if conns.length = 0 then
        processTerms inputs notMap numVars total andColX (idx + 1) rest acc
      else if conns.length = 1 then
        let c0 := conns.getD 0 { nodeId := "", pinIndex := 0, y := 0 }
        processTerms inputs notMap numVars total andColX (idx + 1) rest
          (acc ++ [{ sourceNodeId := c0.nodeId, sourcePinIndex := c0.pinIndex,
                     yPosition := c0.y }])
      else
        let inputCount := conns.length
        let height := ((inputCount : ℚ) + 1) * 20
        let avgY := (conns.map (fun c => c.y)).sum / (inputCount : ℚ)
        let yPos0 := avgY - height / 2
        let yPos := if 0 < idx then
            (let prevY := match acc.getLast? with
              | some t0 => if t0.yPosition = 0 then -1000 else t0.yPosition
              | none => -1000
            if yPos0 < prevY + 60 then prevY + 60 else yPos0)
          else yPos0
        let andNode : CircuitNode :=
          { id := "and" ++ toString idx, type := GateType.AND,
            position := (andColX, yPos), width := 120, height := height,
            state := false, inputs := List.replicate inputCount false, label := "AND" }
        let ws := (conns.enum).map (fun p =>
          { id := "wa" ++ toString idx ++ "x" ++ toString p.1, sourceNodeId := p.2.nodeId,
            sourcePinIndex := 0, targetNodeId := "and" ++ toString idx,
            targetPinIndex := p.1, state := false : Wire })
        let r := processTerms inputs notMap numVars total andColX (idx + 1) rest
          (acc ++ [{ sourceNodeId := "and" ++ toString idx, sourcePinIndex := 0,
                     yPosition := yPos + height / 2 }])
        (r.1, andNode :: r.2.1, ws ++ r.2.2)

/-- `generateCircuitFromTerms` from `src/services/quineMcCluskey.ts`
(lines 97-323): input switches, shared NOT gates, per-term products, the
summing OR gate (arity = number of term outputs, `width = 120` from the
OR config) and the output lamp. -/
def generateCircuitFromTerms (numVars : Nat) (terms : List Term) (startPos : ℚ × ℚ) :
    List CircuitNode × List Wire :=
  let inputs := genInputNodes numVars startPos
  let notEntries := genNotEntries terms startPos inputs
  let notMap := notEntries.map (fun e => (e.1, e.2.1))
  let andColX := startPos.1 + 180 * 2
  let r := processTerms inputs notMap numVars terms.length andColX 0 terms []
  let termOutputs := r.1
  let orColX := andColX + 180 + 40
  match termOutputs with
  | [] =>
    let lampNode : CircuitNode :=
      { id := "lamp", type := GateType.OUTPUT_LAMP,
        position := (orColX + 100, startPos.2 - 25), width := 50, height := 50,
        state := false, inputs := [false], label := "Q" }
    (inputs ++ notEntries.map (fun e => e.2.1) ++ r.2.1 ++ [lampNode],
     notEntries.map (fun e => e.2.2) ++ r.2.2)
  | [t0] =>
    let lampNode : CircuitNode :=
      { id := "lamp", type := GateType.OUTPUT_LAMP,
        position := (orColX + 100, t0.yPosition - 25), width := 50, height := 50,
        state := false, inputs := [false], label := "Q" }
    (inputs ++ notEntries.map (fun e => e.2.1) ++ r.2.1 ++ [lampNode],
     notEntries.map (fun e => e.2.2) ++ r.2.2 ++
       (if t0.sourceNodeId = "" then [] else
        [{ id := "wf", sourceNodeId := t0.sourceNodeId, sourcePinIndex := t0.sourcePinIndex,
           targetNodeId := "lamp", targetPinIndex := 0, state := false }]))
  | _ =>
    let inputCount := termOutputs.length
    let height := ((inputCount : ℚ) + 1) * 20
    let avgY := (termOutputs.map (fun t => t.yPosition)).sum / (inputCount : ℚ)
    let orNode : CircuitNode :=
      { id := "or", type := GateType.OR, position := (orColX, avgY - height / 2),
        width := 120, height := height, state := false,
        inputs := List.replicate inputCount false, label := "OR" }
    let orWires := (termOutputs.enum).map (fun p =>
      { id := "wo" ++ toString p.1, sourceNodeId := p.2.sourceNodeId,
        sourcePinIndex := p.2.sourcePinIndex, targetNodeId := "or",
        targetPinIndex := p.1, state := false : Wire })
    let lampNode : CircuitNode :=
      { id := "lamp", type := GateType.OUTPUT_LAMP,
        position := (orColX + 100, avgY - 25), width := 50, height := 50,
        state := false, inputs := [false], label := "Q" }
    (inputs ++ notEntries.map (fun e => e.2.1) ++ r.2.1 ++ [orNode] ++ [lampNode],
     notEntries.map (fun e => e.2.2) ++ r.2.2 ++ orWires ++
       [{ id := "wf", sourceNodeId := "or", sourcePinIndex := 0,
          targetNodeId := "lamp", targetPinIndex := 0, state := false }])

/-- The positions at which the literal-wiring loop of
`generateCircuitFromTerms` reads `inputs[i]` directly: the `'1'`
positions of a term ( `'0'` positions go through the checked NOT map and
dashes contribute nothing). -/
def oneLiteralIndices (t : Term) : List Nat :=
  (List.range t.length).filter (fun i => decide (t.getD i ' ' = '1'))

/-! ### Basic engine lemmas -/

theorem wireSkel_updateWire (nodes : List CircuitNode) (w : Wire) :
    wireSkel (updateWire nodes w) = wireSkel w := by
  unfold updateWire
  cases lookupNode nodes w.sourceNodeId <;> rfl

theorem length_currentInputs (wires : List Wire) (node : CircuitNode) :
    ((List.range node.inputs.length).map (fun i =>
      match findWirePin wires node.id i with
      | some w => w.state
      | none => false)).length = node.inputs.length := by
  simp

theorem nodeSkel_updateNode (wires : List Wire) (n : CircuitNode) :
    nodeSkel (updateNode wires n) = nodeSkel n := by
  simp only [updateNode]
  split
  · rfl
  · split
    · rfl
    · simp [nodeSkel]

theorem updateNode_id (wires : List Wire) (n : CircuitNode) : (updateNode wires n).id = n.id := by
  have h := nodeSkel_updateNode wires n
  simpa [nodeSkel] using congrArg (fun p => p.1) h

theorem updateNode_type (wires : List Wire) (n : CircuitNode) :
    (updateNode wires n).type = n.type := by
  have h := nodeSkel_updateNode wires n
  simpa [nodeSkel] using congrArg (fun p => p.2.1) h

theorem roundOnce_skel (nodes : List CircuitNode) (wires : List Wire) :
    (roundOnce nodes wires).1.map nodeSkel = nodes.map nodeSkel ∧
      (roundOnce nodes wires).2.1.map wireSkel = wires.map wireSkel := by
  unfold roundOnce
  constructor
  · simp only [List.map_map]
    exact List.map_congr_left (fun n _ => nodeSkel_updateNode _ n)
  · simp only [List.map_map]
    exact List.map_congr_left (fun w _ => wireSkel_updateWire _ w)

theorem propagateLoop_skel (fuel : Nat) :
    ∀ (nodes : List CircuitNode) (wires : List Wire),
    (propagateLoop fuel nodes wires).1.map nodeSkel = nodes.map nodeSkel ∧
      (propagateLoop fuel nodes wires).2.map wireSkel = wires.map wireSkel := by
  induction fuel with
  | zero => intro nodes wires; exact ⟨rfl, rfl⟩
  | succ fuel ih =>
    intro nodes wires
    have hr := roundOnce_skel nodes wires
    simp only [propagateLoop]
    split
    · exact ⟨hr.1, hr.2⟩
    · have := ih (roundOnce nodes wires).1 (roundOnce nodes wires).2.1
      exact ⟨this.1.trans hr.1, this.2.trans hr.2⟩

/-! ### C9: the engine only mutates state fields -/

/-- C9: `stabilize` returns a snapshot with exactly the same elements and
connections as its input — same ids, kinds, positions, labels, sizes,
input arities, and same wire endpoints — differing at most in element
output states, element input-state vectors, and wire states. -/
theorem propagateCircuit_frame (nodes : List CircuitNode) (wires : List Wire) :
    (propagateCircuit nodes wires).1.map nodeSkel = nodes.map nodeSkel ∧
      (propagateCircuit nodes wires).2.map wireSkel = wires.map wireSkel :=
  propagateLoop_skel 20 nodes wires

/-! ### C4: per-kind output function table -/

/-- C4: `computeNodeLogic` realizes the per-kind function table of §4.1.1
on non-empty input vectors, and returns `false` on an empty input vector
for every kind other than `INPUT_SWITCH`/`CLOCK`. -/
theorem computeNodeLogic_table (node : CircuitNode) (v : List Bool) :
    (v ≠ [] →
      (node.type = GateType.AND → computeNodeLogic node v = v.all id) ∧
      (node.type = GateType.OR → computeNodeLogic node v = v.any id) ∧
      (node.type = GateType.NAND → computeNodeLogic node v = !(v.all id)) ∧
      (node.type = GateType.NOR → computeNodeLogic node v = !(v.any id)) ∧
      (node.type = GateType.XOR → (computeNodeLogic node v = true ↔ v.count true % 2 = 1)) ∧
      (node.type = GateType.NOT → computeNodeLogic node v = !v.headI)) ∧
    (v = [] → node.type ≠ GateType.INPUT_SWITCH → node.type ≠ GateType.CLOCK →
      computeNodeLogic node v = false) := by
  have hcount : (v.filter (fun s => s)).length = v.count true := by
    induction v with
    | nil => rfl
    | cons b bs ih => cases b <;> simp [ih, List.count_cons]
  constructor
  · intro hv
    have hlen : ¬ v.length = 0 := by simpa [List.length_eq_zero] using hv
    refine ⟨?_, ?_, ?_, ?_, ?_, ?_⟩ <;> intro hty <;>
      simp [computeNodeLogic, hty, hlen, hcount, id] <;>
      try rfl
    obtain ⟨b, bs, rfl⟩ := List.exists_cons_of_ne_nil hv
    simp
  · intro hv h1 h2
    subst hv
    simp [computeNodeLogic, h1, h2]

/-- Witness for C4 at a concrete gate and input vector. -/
theorem computeNodeLogic_table_witness :
    computeNodeLogic
      { id := "g", type := GateType.AND, position := (0, 0), state := false,
        inputs := [], width := 120, height := 60, label := "AND" } [true, false]
      = [true, false].all id :=
  ((computeNodeLogic_table
      { id := "g", type := GateType.AND, position := (0, 0), state := false,
        inputs := [], width := 120, height := 60, label := "AND" } [true, false]).1
    (by decide)).1 rfl

/-! ### C2: the output/inputs invariant after stabilization -/

/-- `computeNodeLogic` reads nothing but the type from the node record
when the type is not `INPUT_SWITCH`/`CLOCK`. -/
theorem computeNodeLogic_congr (n m : CircuitNode) (v : List Bool) (hty : n.type = m.type)
    (h1 : n.type ≠ GateType.INPUT_SWITCH) (h2 : n.type ≠ GateType.CLOCK) :
    computeNodeLogic n v = computeNodeLogic m v := by
  unfold computeNodeLogic
  rw [← hty]
  rcases hg : n.type <;> simp_all

theorem updateNode_consistent (wires : List Wire) (n : CircuitNode)
    (h : NodeConsistent n) : NodeConsistent (updateNode wires n) := by
  simp only [updateNode]
  split
  · exact h
  · rename_i hsrc
    push_neg at hsrc
    split
    · exact h
    · intro h1 h2
      simp only
      exact computeNodeLogic_congr n _ _ rfl hsrc.1 hsrc.2

theorem roundOnce_consistent (nodes : List CircuitNode) (wires : List Wire)
    (h : ∀ n ∈ nodes, NodeConsistent n) :
    ∀ n' ∈ (roundOnce nodes wires).1, NodeConsistent n' := by
  intro n' hn'
  simp only [roundOnce, List.mem_map] at hn'
  obtain ⟨n, hn, rfl⟩ := hn'
  exact updateNode_consistent _ n (h n hn)

theorem propagateLoop_consistent (fuel : Nat) :
    ∀ (nodes : List CircuitNode) (wires : List Wire),
    (∀ n ∈ nodes, NodeConsistent n) →
    ∀ n' ∈ (propagateLoop fuel nodes wires).1, NodeConsistent n' := by
  induction fuel with
  | zero => exact fun nodes wires h => h
  | succ fuel ih =>
    intro nodes wires h
    have hr := roundOnce_consistent nodes wires h
    simp only [propagateLoop]
    split
    · exact hr
    · exact ih (roundOnce nodes wires).1 (roundOnce nodes wires).2.1 hr

/-- C2 (amended): the engine preserves the §3 invariant — if every
non-source element of the input snapshot satisfies
`output = f(kind, inputs)`, then every non-source element of the returned
snapshot does as well.  (An element whose stored inputs already equal the
wire-derived inputs is not re-evaluated, so a stale output can survive;
see the counterexample.) -/
theorem propagateCircuit_preserves_consistency (nodes : List CircuitNode) (wires : List Wire)
    (h : ∀ n ∈ nodes, NodeConsistent n) :
    ∀ n' ∈ (propagateCircuit nodes wires).1, NodeConsistent n' :=
  propagateLoop_consistent 20 nodes wires h

/-- Witness for the amended C2 on a concrete consistent snapshot: a live
switch wired to a lamp. -/
theorem propagateCircuit_preserves_consistency_witness :
    (∀ n ∈
      [{ id := "s", type := GateType.INPUT_SWITCH, position := (0, 0), state := true,
         inputs := [], width := 50, height := 50, label := "SW" },
       { id := "q", type := GateType.OUTPUT_LAMP, position := (1, 0), state := false,
         inputs := [false], width := 50, height := 50, label := "Q" : CircuitNode }],
      NodeConsistent n) ∧
    (∀ n' ∈ (propagateCircuit
      [{ id := "s", type := GateType.INPUT_SWITCH, position := (0, 0), state := true,
         inputs := [], width := 50, height := 50, label := "SW" },
       { id := "q", type := GateType.OUTPUT_LAMP, position := (1, 0), state := false,
         inputs := [false], width := 50, height := 50, label := "Q" }]
      [{ id := "w", sourceNodeId := "s", sourcePinIndex := 0, targetNodeId := "q",
         targetPinIndex := 0, state := false }]).1, NodeConsistent n') :=
  ⟨by decide, propagateCircuit_preserves_consistency _ _ (by decide)⟩

/-- Counterexample to C2 as stated: a lone AND gate whose stored inputs
`[false]` already match the recomputed (floating-low) inputs but whose
stored output is a stale `true` is returned unchanged by `stabilize`, so
`output = f(kind, inputs)` fails in the returned snapshot. -/
theorem propagateCircuit_consistency_counterexample :
    ¬ (∀ n' ∈ (propagateCircuit
        [{ id := "g", type := GateType.AND, position := (0, 0), state := true,
           inputs := [false], width := 120, height := 60, label := "AND" }] []).1,
        NodeConsistent n') := by
  decide

/-! ### C5: floating inputs default to false -/

theorem findWirePin_eq_none (wires : List Wire) (nid : String) (i : Nat)
    (h : ∀ w ∈ wires, ¬(w.targetNodeId = nid ∧ w.targetPinIndex = i)) :
    findWirePin wires nid i = none := by
  unfold findWirePin
  rw [List.find?_eq_none]
  intro w hw
  rw [List.mem_filter] at hw
  have := h w hw.1
  simp only [decide_eq_true_eq] at hw
  simp only [decide_eq_true_eq]
  exact fun hpin => this ⟨hw.2, hpin⟩

theorem getD_range_map {α : Type} (len i : Nat) (f : Nat → α) (d : α) (hi : i < len) :
    (((List.range len).map f).getD i d) = f i := by
  rw [List.getD_eq_getElem?_getD, List.getElem?_map, List.getElem?_range hi]
  rfl

theorem updateNode_inputs_length (wires : List Wire) (n : CircuitNode) :
    (updateNode wires n).inputs.length = n.inputs.length := by
  simp only [updateNode]
  split
  · rfl
  · split
    · rfl
    · simp

/-- Every non-source node produced by the node phase of a round reads
`false` on each input pin that no wire targets. -/
theorem updateNode_floating (wires : List Wire) (n : CircuitNode) (i : Nat)
    (hty : n.type ≠ GateType.INPUT_SWITCH) (hty2 : n.type ≠ GateType.CLOCK)
    (hi : i < n.inputs.length)
    (hw : ∀ w ∈ wires, ¬(w.targetNodeId = n.id ∧ w.targetPinIndex = i)) :
    (updateNode wires n).inputs.getD i false = false := by
  have hnone := findWirePin_eq_none wires n.id i hw
  have hcond : ¬(n.type = GateType.INPUT_SWITCH ∨ n.type = GateType.CLOCK) := by
    simp [hty, hty2]
  simp only [updateNode, if_neg hcond]
  split
  · rename_i hsame
    rw [← hsame, getD_range_map _ _ _ _ hi, hnone]
  · simp only
    rw [getD_range_map _ _ _ _ hi, hnone]

/-- The node list returned by `propagateLoop` (with at least one round of
fuel) is the node phase of a final round, over wires whose immutable
fields agree with the input wires. -/
theorem propagateLoop_last_round (fuel : Nat) :
    ∀ (nodes : List CircuitNode) (wires : List Wire),
    ∃ (ns : List CircuitNode) (ws : List Wire),
      (propagateLoop (fuel + 1) nodes wires).1 = ns.map (updateNode ws) ∧
      ws.map wireSkel = wires.map wireSkel := by
  induction fuel with
  | zero =>
    intro nodes wires
    refine ⟨nodes, wires.map (updateWire nodes), ?_, ?_⟩
    · simp only [propagateLoop, roundOnce]
      split <;> rfl
    · rw [List.map_map]
      exact List.map_congr_left (fun w _ => wireSkel_updateWire _ w)
  | succ fuel ih =>
    intro nodes wires
    have hwskel : (wires.map (updateWire nodes)).map wireSkel = wires.map wireSkel := by
      rw [List.map_map]
      exact List.map_congr_left (fun w _ => wireSkel_updateWire _ w)
    simp only [propagateLoop, roundOnce]
    split
    · exact ⟨nodes, wires.map (updateWire nodes), rfl, hwskel⟩
    · obtain ⟨ns, ws, h1, h2⟩ := ih (nodes.map (updateNode (wires.map (updateWire nodes))))
        (wires.map (updateWire nodes))
      exact ⟨ns, ws, h1, h2.trans hwskel⟩

/-- C5 (amended): after `stabilize`, every non-source element's input
entry at a pin targeted by no connection is `false` (floating low); in
particular a disconnected 3-input AND gate evaluates to `false` whenever
its inputs are actually re-read (non-stale start), e.g. one whose stored
inputs were `[true, true, true]`. -/
theorem propagateCircuit_floating_low :
    (∀ (nodes : List CircuitNode) (wires : List Wire),
      ∀ n' ∈ (propagateCircuit nodes wires).1,
        n'.type ≠ GateType.INPUT_SWITCH → n'.type ≠ GateType.CLOCK →
        ∀ i < n'.inputs.length,
          (∀ w ∈ wires, ¬(w.targetNodeId = n'.id ∧ w.targetPinIndex = i)) →
          n'.inputs.getD i false = false) ∧
    (propagateCircuit
      [{ id := "g", type := GateType.AND, position := (0, 0), state := true,
         inputs := [true, true, true], width := 120, height := 60, label := "AND" }] []).1.map
      (fun n => n.state) = [false] := by
  constructor
  · intro nodes wires n' hn' hty hty2 i hi hw
    obtain ⟨ns, ws, h1, h2⟩ := propagateLoop_last_round 19 nodes wires
    rw [show propagateCircuit nodes wires = propagateLoop 20 nodes wires from rfl, h1] at hn'
    rw [List.mem_map] at hn'
    obtain ⟨n, hn, rfl⟩ := hn'
    rw [updateNode_type] at hty hty2
    rw [updateNode_inputs_length] at hi
    refine updateNode_floating ws n i hty hty2 hi ?_
    intro w hwmem
    have : wireSkel w ∈ wires.map wireSkel := by
      rw [← h2]
      exact List.mem_map_of_mem wireSkel hwmem
    rw [List.mem_map] at this
    obtain ⟨w0, hw0, hskel⟩ := this
    have htgt : w.targetNodeId = w0.targetNodeId ∧ w.targetPinIndex = w0.targetPinIndex := by
      unfold wireSkel at hskel
      exact ⟨(congrArg (fun p => p.2.2.2.1) hskel).symm,
        (congrArg (fun p => p.2.2.2.2.1) hskel).symm⟩
    have hid : (updateNode ws n).id = n.id := updateNode_id ws n
    rw [hid] at hw
    rw [htgt.1, htgt.2]
    exact hw w0 hw0
  · decide

/-- Witness for C5 at a concrete snapshot: a lone 2-input OR gate with a
true stored input and no wires reads both pins as floating-low. -/
theorem propagateCircuit_floating_low_witness :
    ((propagateCircuit
      [{ id := "g", type := GateType.OR, position := (0, 0), state := true,
         inputs := [true, false], width := 120, height := 60, label := "OR" }] []).1.map
      (fun n => n.inputs) = [[false, false]]) ∧
    (∀ n' ∈ (propagateCircuit
      [{ id := "g", type := GateType.OR, position := (0, 0), state := true,
         inputs := [true, false], width := 120, height := 60, label := "OR" }] []).1,
      n'.type ≠ GateType.INPUT_SWITCH → n'.type ≠ GateType.CLOCK →
      ∀ i < n'.inputs.length,
        (∀ w ∈ ([] : List Wire), ¬(w.targetNodeId = n'.id ∧ w.targetPinIndex = i)) →
        n'.inputs.getD i false = false) :=
  ⟨by decide, propagateCircuit_floating_low.1
    [{ id := "g", type := GateType.OR, position := (0, 0), state := true,
       inputs := [true, false], width := 120, height := 60, label := "OR" }] []⟩

/-- Counterexample to C5 as stated: the claim's "in particular" instance —
output false for every disconnected 3-input AND gate — fails for a gate
whose stored inputs are already all-false but whose stored output is a
stale `true`: the engine skips re-evaluation and keeps the stale output. -/
theorem propagateCircuit_floating_low_counterexample :
    ¬ (∀ (g : CircuitNode), g.type = GateType.AND → g.inputs.length = 3 →
        (propagateCircuit [g] []).1.map (fun n => n.state) = [false]) := by
  intro h
  exact (by decide :
      ¬ (propagateCircuit
        [{ id := "g", type := GateType.AND, position := (0, 0), state := true,
           inputs := [false, false, false], width := 120, height := 60,
           label := "AND" }] []).1.map (fun n => n.state) = [false])
    (h { id := "g", type := GateType.AND, position := (0, 0), state := true,
         inputs := [false, false, false], width := 120, height := 60, label := "AND" }
      rfl rfl)

/-! ### C3: idempotence of stabilization -/

theorem propagateLoop_succ (fuel : Nat) (nodes : List CircuitNode) (wires : List Wire) :
    propagateLoop (fuel + 1) nodes wires =
      (match roundOnce nodes wires with
       | (nodes', wires', stable) =>
         if stable then (nodes', wires') else propagateLoop fuel nodes' wires') := rfl

theorem propagateCircuit_of_roundStable (nodes : List CircuitNode) (wires : List Wire)
    (h : IsRoundStable nodes wires) : propagateCircuit nodes wires = (nodes, wires) := by
  unfold IsRoundStable at h
  show propagateLoop 20 nodes wires = (nodes, wires)
  rw [show (20 : Nat) = 19 + 1 from rfl, propagateLoop_succ, h]
  rfl

/-- C3 (amended): whenever the first `stabilize` call converges — its
result is round-stable, i.e. one further evaluation round changes no wire
state and no node state — a second call returns the snapshot unchanged.
(For acyclic graphs deeper than the 20-round iteration cap the first call
may stop before convergence, and a second call then changes states; see
the counterexample.) -/
theorem propagateCircuit_idempotent_of_stable (nodes : List CircuitNode) (wires : List Wire)
    (h : IsRoundStable (propagateCircuit nodes wires).1 (propagateCircuit nodes wires).2) :
    propagateCircuit (propagateCircuit nodes wires).1 (propagateCircuit nodes wires).2 =
      propagateCircuit nodes wires :=
  propagateCircuit_of_roundStable _ _ h

/-- Witness for the amended C3: a lone live switch converges inside the
cap, and a second stabilization changes nothing. -/
theorem propagateCircuit_idempotent_witness :
    propagateCircuit
      (propagateCircuit
        [{ id := "s", type := GateType.INPUT_SWITCH, position := (0, 0), state := true,
           inputs := [], width := 50, height := 50, label := "SW" }] []).1
      (propagateCircuit
        [{ id := "s", type := GateType.INPUT_SWITCH, position := (0, 0), state := true,
           inputs := [], width := 50, height := 50, label := "SW" }] []).2 =
    propagateCircuit
      [{ id := "s", type := GateType.INPUT_SWITCH, position := (0, 0), state := true,
         inputs := [], width := 50, height := 50, label := "SW" }] [] :=
  propagateCircuit_idempotent_of_stable _ _ (by decide)

theorem propagateLoop_step (fuel : Nat) {nodes nodes' : List CircuitNode}
    {wires wires' : List Wire} (h : roundOnce nodes wires = (nodes', wires', false)) :
    propagateLoop (fuel + 1) nodes wires = propagateLoop fuel nodes' wires' := by
  rw [propagateLoop_succ, h]
  rfl

theorem propagateLoop_of_stable (fuel : Nat) {nodes nodes' : List CircuitNode}
    {wires wires' : List Wire} (h : roundOnce nodes wires = (nodes', wires', true)) :
    propagateLoop (fuel + 1) nodes wires = (nodes', wires') := by
  rw [propagateLoop_succ, h]
  rfl

/-- Each of the first 25 rounds on the chain snapshot advances the
wavefront by one gate and is unstable. -/
theorem chain_rounds : ∀ r, r < 25 →
    roundOnce (chainNodesR r) (chainWiresR r) =
      (chainNodesR (r + 1), chainWiresR (r + 1), false) := by
  decide

/-- After 25 rounds the chain snapshot is round-stable. -/
theorem chain_stable :
    roundOnce (chainNodesR 25) (chainWiresR 25) =
      (chainNodesR 25, chainWiresR 25, true) := by
  decide

theorem chain_run : ∀ (steps fuel r : Nat), r + steps ≤ 25 →
    propagateLoop (steps + fuel) (chainNodesR r) (chainWiresR r) =
      propagateLoop fuel (chainNodesR (r + steps)) (chainWiresR (r + steps)) := by
  intro steps
  induction steps with
  | zero =>
    intro fuel r _
    rw [Nat.zero_add, Nat.add_zero]
  | succ steps ih =>
    intro fuel r h
    have h0 : roundOnce (chainNodesR r) (chainWiresR r) =
        (chainNodesR (r + 1), chainWiresR (r + 1), false) := chain_rounds r (by omega)
    calc propagateLoop (steps + 1 + fuel) (chainNodesR r) (chainWiresR r)
        = propagateLoop (steps + fuel + 1) (chainNodesR r) (chainWiresR r) := by
          rw [show steps + 1 + fuel = steps + fuel + 1 from by omega]
      _ = propagateLoop (steps + fuel) (chainNodesR (r + 1)) (chainWiresR (r + 1)) :=
          propagateLoop_step _ h0
      _ = propagateLoop fuel (chainNodesR (r + 1 + steps)) (chainWiresR (r + 1 + steps)) :=
          ih fuel (r + 1) (by omega)
      _ = propagateLoop fuel (chainNodesR (r + (steps + 1))) (chainWiresR (r + (steps + 1))) := by
          rw [show r + 1 + steps = r + (steps + 1) from by omega]

/-- The first stabilization of the chain stops at the 20-round cap. -/
theorem chain_first :
    propagateCircuit chainNodes chainWires = (chainNodesR 20, chainWiresR 20) := by
  show propagateLoop 20 (chainNodesR 0) (chainWiresR 0) = _
  exact chain_run 20 0 0 (by omega)

/-- A second stabilization of the chain runs to the true fixed point. -/
theorem chain_second :
    propagateCircuit (chainNodesR 20) (chainWiresR 20) = (chainNodesR 25, chainWiresR 25) := by
  show propagateLoop 20 (chainNodesR 20) (chainWiresR 20) = _
  have h := chain_run 5 15 20 (by omega)
  have h2 : propagateLoop 15 (chainNodesR 25) (chainWiresR 25) =
      (chainNodesR 25, chainWiresR 25) := propagateLoop_of_stable 14 chain_stable
  calc propagateLoop 20 (chainNodesR 20) (chainWiresR 20)
      = propagateLoop 15 (chainNodesR (20 + 5)) (chainWiresR (20 + 5)) := h
    _ = (chainNodesR 25, chainWiresR 25) := h2

/-- Counterexample to C3 as stated: the 26-element acyclic chain needs
more rounds than the 20-round cap, so the first `stabilize` call stops
short of a fixed point and a second call changes node states. -/
theorem propagateCircuit_idempotent_counterexample :
    acyclicB chainNodes chainWires = true ∧
    (propagateCircuit (propagateCircuit chainNodes chainWires).1
        (propagateCircuit chainNodes chainWires).2).1.map (fun n => n.state) ≠
      (propagateCircuit chainNodes chainWires).1.map (fun n => n.state) := by
  refine ⟨by decide, ?_⟩
  intro heq
  rw [chain_first] at heq
  change (propagateCircuit (chainNodesR 20) (chainWiresR 20)).1.map (fun n => n.state) =
    (chainNodesR 20).map (fun n => n.state) at heq
  rw [chain_second] at heq
  change (chainNodesR 25).map (fun n => n.state) =
    (chainNodesR 20).map (fun n => n.state) at heq
  exact (by decide : ¬ ((chainNodesR 25).map (fun n => n.state) =
    (chainNodesR 20).map (fun n => n.state))) heq

/-! ### C7: dangling connection references -/

theorem lookupState_foldl (nid : String) :
    ∀ (nodes : List CircuitNode) (acc : Option CircuitNode),
    nodes.foldl (fun a n => if n.id = nid then some n.state else a)
        (acc.map (fun n => n.state)) =
      (nodes.foldl (fun a n => if n.id = nid then some n else a) acc).map
        (fun n => n.state) := by
  intro nodes
  induction nodes with
  | nil => intro acc; rfl
  | cons n ns ih =>
    intro acc
    simp only [List.foldl_cons]
    by_cases h : n.id = nid
    · rw [if_pos h, if_pos h, show some n.state = (some n).map (fun n => n.state) from rfl, ih]
    · rw [if_neg h, if_neg h, ih]

theorem lookupState_eq (nodes : List CircuitNode) (nid : String) :
    lookupState nodes nid = (lookupNode nodes nid).map (fun n => n.state) :=
  lookupState_foldl nid nodes none

theorem updateWire_eq_lookupState (nodes : List CircuitNode) (w : Wire) :
    updateWire nodes w = { w with state := (lookupState nodes w.sourceNodeId).getD w.state } := by
  unfold updateWire
  rw [lookupState_eq]
  cases lookupNode nodes w.sourceNodeId with
  | none => rfl
  | some src => rfl

theorem map_pair_congr {α β γ : Type} (f : α → β) (g : α → γ) :
    ∀ (l₁ l₂ : List α), l₁.map f = l₂.map f → l₁.map g = l₂.map g →
    l₁.map (fun x => (f x, g x)) = l₂.map (fun x => (f x, g x)) := by
  intro l₁
  induction l₁ with
  | nil => intro l₂ h1 h2; cases l₂ <;> simp_all
  | cons a l ih =>
    intro l₂ h1 h2
    cases l₂ with
    | nil => simp_all
    | cons b m =>
      simp only [List.map_cons, List.cons.injEq] at h1 h2 ⊢
      exact ⟨by rw [h1.1, h2.1], ih m h1.2 h2.2⟩

theorem lookupState_congr (nodes₁ nodes₂ : List CircuitNode)
    (h : nodes₁.map (fun n => (n.id, n.state)) = nodes₂.map (fun n => (n.id, n.state))) :
    ∀ nid, lookupState nodes₁ nid = lookupState nodes₂ nid := by
  intro nid
  have e : ∀ (ns : List CircuitNode), lookupState ns nid =
      (ns.map (fun n => (n.id, n.state))).foldl
        (fun a p => if p.1 = nid then some p.2 else a) none := by
    intro ns
    rw [List.foldl_map]
    rfl
  rw [e nodes₁, e nodes₂, h]

theorem updateWire_congr (nodes₁ nodes₂ : List CircuitNode) (w : Wire)
    (h : ∀ nid, lookupState nodes₁ nid = lookupState nodes₂ nid) :
    updateWire nodes₁ w = updateWire nodes₂ w := by
  rw [updateWire_eq_lookupState, updateWire_eq_lookupState, h]

theorem updateNode_inputs (wires : List Wire) (n : CircuitNode)
    (hsrc : ¬(n.type = GateType.INPUT_SWITCH ∨ n.type = GateType.CLOCK)) :
    (updateNode wires n).inputs = (List.range n.inputs.length).map (fun i =>
      match findWirePin wires n.id i with
      | some w => w.state
      | none => false) := by
  simp only [updateNode, if_neg hsrc]
  split
  · rename_i hsame
    exact hsame.symm
  · rfl

theorem updateNode_idem (wires : List Wire) (n : CircuitNode) :
    updateNode wires (updateNode wires n) = updateNode wires n := by
  by_cases hsrc : n.type = GateType.INPUT_SWITCH ∨ n.type = GateType.CLOCK
  · have hinner : updateNode wires n = n := by simp only [updateNode, if_pos hsrc]
    rw [hinner]
    exact hinner
  · have htype := updateNode_type wires n
    have hid := updateNode_id wires n
    have hlen := updateNode_inputs_length wires n
    have hinp := updateNode_inputs wires n hsrc
    set m := updateNode wires n with hm
    have hsrc2 : ¬(m.type = GateType.INPUT_SWITCH ∨ m.type = GateType.CLOCK) := by
      rw [htype]; exact hsrc
    have hci : (List.range m.inputs.length).map (fun i =>
        match findWirePin wires m.id i with
        | some w => w.state
        | none => false) = m.inputs := by
      rw [hid, hlen]
      exact hinp.symm
    simp only [updateNode, if_neg hsrc2, if_pos hci]

/-- A round whose stability flag is true leaves all node ids and states
(and hence the node map) unchanged. -/
theorem roundOnce_stable_lookup (nodes ns : List CircuitNode) (wires ws : List Wire)
    (h : roundOnce nodes wires = (ns, ws, true)) :
    ∀ nid, lookupState ns nid = lookupState nodes nid := by
  have h2 : nodes.map (updateNode (wires.map (updateWire nodes))) = ns :=
    congrArg (fun p => p.1) h
  have h3 : (decide (wires.map (updateWire nodes) = wires) &&
      decide ((nodes.map (updateNode (wires.map (updateWire nodes)))).map (fun n => n.state) =
        nodes.map (fun n => n.state))) = true := congrArg (fun p => p.2.2) h
  rw [Bool.and_eq_true, decide_eq_true_eq, decide_eq_true_eq] at h3
  have hids : ns.map (fun n => n.id) = nodes.map (fun n => n.id) := by
    rw [← h2, List.map_map]
    exact List.map_congr_left (fun n _ => updateNode_id _ n)
  have hst : ns.map (fun n => n.state) = nodes.map (fun n => n.state) := by
    rw [← h2]
    exact h3.2
  exact lookupState_congr ns nodes (map_pair_congr _ _ ns nodes hids hst)

/-- A round whose stability flag is true produces a fixed point of the
round function. -/
theorem roundOnce_stable_fixed (nodes ns : List CircuitNode) (wires ws : List Wire)
    (h : roundOnce nodes wires = (ns, ws, true)) : roundOnce ns ws = (ns, ws, true) := by
  have h1 : wires.map (updateWire nodes) = ws := congrArg (fun p => p.2.1) h
  have h2 : nodes.map (updateNode (wires.map (updateWire nodes))) = ns :=
    congrArg (fun p => p.1) h
  have h3 : (decide (wires.map (updateWire nodes) = wires) &&
      decide ((nodes.map (updateNode (wires.map (updateWire nodes)))).map (fun n => n.state) =
        nodes.map (fun n => n.state))) = true := congrArg (fun p => p.2.2) h
  rw [Bool.and_eq_true, decide_eq_true_eq, decide_eq_true_eq] at h3
  have hweq : wires.map (updateWire nodes) = wires := h3.1
  have hwsw : ws = wires := h1.symm.trans hweq
  have hlk : ∀ nid, lookupState ns nid = lookupState nodes nid :=
    roundOnce_stable_lookup nodes ns wires ws h
  have hw2 : ws.map (updateWire ns) = ws := by
    calc ws.map (updateWire ns) = ws.map (updateWire nodes) :=
          List.map_congr_left (fun w _ => updateWire_congr ns nodes w hlk)
      _ = wires.map (updateWire nodes) := by rw [hwsw]
      _ = wires := hweq
      _ = ws := hwsw.symm
  have hwires' : wires.map (updateWire nodes) = ws := h1
  have hn2 : ns.map (updateNode ws) = ns := by
    conv_lhs => rw [← h2, hwires']
    rw [List.map_map]
    calc (nodes.map fun n => updateNode ws (updateNode ws n))
        = nodes.map (updateNode ws) := List.map_congr_left (fun n _ => updateNode_idem ws n)
      _ = ns := by rw [← hwires', h2]
  show (ws.map (updateWire ns) |> fun ws' =>
    (ns.map (updateNode ws'), ws',
      decide (ws' = ws) && decide ((ns.map (updateNode ws')).map (fun n => n.state) =
        ns.map (fun n => n.state)))) = (ns, ws, true)
  simp only [hw2, hn2, decide_eq_true_eq]
  simp

theorem updateWire_target (nodes : List CircuitNode) (w : Wire) :
    (updateWire nodes w).targetNodeId = w.targetNodeId := by
  unfold updateWire
  cases lookupNode nodes w.sourceNodeId <;> rfl

theorem updateWire_source (nodes : List CircuitNode) (w : Wire) :
    (updateWire nodes w).sourceNodeId = w.sourceNodeId := by
  unfold updateWire
  cases lookupNode nodes w.sourceNodeId <;> rfl

theorem updateWire_idem (nodes : List CircuitNode) (w : Wire) :
    updateWire nodes (updateWire nodes w) = updateWire nodes w := by
  rw [updateWire_eq_lookupState nodes w, updateWire_eq_lookupState]
  simp only
  cases lookupState nodes w.sourceNodeId <;> rfl

theorem lookupNode_eq_none (nodes : List CircuitNode) (nid : String)
    (h : ∀ n ∈ nodes, n.id ≠ nid) : lookupNode nodes nid = none := by
  have aux : ∀ (l : List CircuitNode) (acc : Option CircuitNode), (∀ n ∈ l, n.id ≠ nid) →
      l.foldl (fun a n => if n.id = nid then some n else a) acc = acc := by
    intro l
    induction l with
    | nil => intro acc _; rfl
    | cons n ns ih =>
      intro acc hl
      simp only [List.foldl_cons]
      rw [if_neg (hl n (by simp))]
      exact ih acc (fun m hm => hl m (by simp [hm]))
  exact aux nodes none h

theorem findWirePin_append_not_target (ws : List Wire) (w : Wire) (nid : String) (i : Nat)
    (h : w.targetNodeId ≠ nid) : findWirePin (ws ++ [w]) nid i = findWirePin ws nid i := by
  unfold findWirePin
  rw [List.filter_append]
  have hnil : List.filter (fun w' => decide (w'.targetNodeId = nid)) [w] = [] := by
    simp [h]
  rw [hnil, List.append_nil]

theorem updateNode_signal_congr (ws₁ ws₂ : List Wire) (n : CircuitNode)
    (h : ∀ i, (match findWirePin ws₁ n.id i with
               | some w => w.state
               | none => false) =
              (match findWirePin ws₂ n.id i with
               | some w => w.state
               | none => false)) :
    updateNode ws₁ n = updateNode ws₂ n := by
  unfold updateNode
  split
  · rfl
  · have hci : (List.range n.inputs.length).map (fun i =>
        match findWirePin ws₁ n.id i with
        | some w => w.state
        | none => false) = (List.range n.inputs.length).map (fun i =>
        match findWirePin ws₂ n.id i with
        | some w => w.state
        | none => false) := List.map_congr_left (fun i _ => h i)
    rw [hci]

theorem findWirePin_signal_append_false (ws : List Wire) (wc : Wire)
    (hst : wc.state = false) (nid : String) (i : Nat) :
    (match findWirePin (ws ++ [wc]) nid i with
     | some w => w.state
     | none => false) =
    (match findWirePin ws nid i with
     | some w => w.state
     | none => false) := by
  unfold findWirePin
  rw [List.filter_append, List.find?_append]
  cases hf : (ws.filter (fun w => decide (w.targetNodeId = nid))).find?
      (fun w => decide (w.targetPinIndex = i)) with
  | some w => rfl
  | none =>
    simp only [Option.none_or]
    by_cases ht : wc.targetNodeId = nid
    · by_cases hp : wc.targetPinIndex = i
      · simp [ht, hp, List.find?, hst]
      · simp [ht, hp, List.find?]
    · simp [ht]

/-- Appending a connection whose target id matches no node decomposes a
round into the original round plus an independent update of that
connection. -/
theorem roundOnce_append_missing_target (nodes : List CircuitNode) (wires : List Wire)
    (wc : Wire) (h : ∀ n ∈ nodes, n.id ≠ wc.targetNodeId) :
    roundOnce nodes (wires ++ [wc]) =
      ((roundOnce nodes wires).1,
       (roundOnce nodes wires).2.1 ++ [updateWire nodes wc],
       ((roundOnce nodes wires).2.2 && decide (updateWire nodes wc = wc))) := by
  have hnode : nodes.map
      (updateNode (wires.map (updateWire nodes) ++ [updateWire nodes wc])) =
      nodes.map (updateNode (wires.map (updateWire nodes))) := by
    apply List.map_congr_left
    intro n hn
    apply updateNode_signal_congr
    intro i
    rw [findWirePin_append_not_target _ _ _ i]
    rw [updateWire_target]
    exact fun he => h n hn he.symm
  have hflag : decide ((wires.map (updateWire nodes) ++ [updateWire nodes wc]) =
      (wires ++ [wc])) =
      (decide (wires.map (updateWire nodes) = wires) && decide (updateWire nodes wc = wc)) := by
    rw [← Bool.decide_and]
    apply decide_eq_decide.mpr
    constructor
    · intro he
      have := List.append_inj' he rfl
      exact ⟨this.1, by simpa using this.2⟩
    · intro he
      rw [he.1, he.2]
  show ((wires ++ [wc]).map (updateWire nodes) |> fun ws' =>
    (nodes.map (updateNode ws'), ws',
      decide (ws' = (wires ++ [wc])) &&
        decide ((nodes.map (updateNode ws')).map (fun n => n.state) =
          nodes.map (fun n => n.state)))) = _
  simp only [List.map_append, List.map_cons, List.map_nil]
  rw [hnode, hflag]
  show (_, _, (decide (wires.map (updateWire nodes) = wires) &&
      decide (updateWire nodes wc = wc)) && _) = _
  rw [Bool.and_assoc, Bool.and_comm (decide (updateWire nodes wc = wc)) _, ← Bool.and_assoc]
  rfl

/-- Appending a connection whose source id matches no node and whose
cached state is false leaves a round entirely unchanged apart from
carrying the connection along. -/
theorem roundOnce_append_ghost (nodes : List CircuitNode) (wires : List Wire) (wc : Wire)
    (hs : ∀ n ∈ nodes, n.id ≠ wc.sourceNodeId) (hst : wc.state = false) :
    roundOnce nodes (wires ++ [wc]) =
      ((roundOnce nodes wires).1,
       (roundOnce nodes wires).2.1 ++ [wc],
       (roundOnce nodes wires).2.2) := by
  have hwc : updateWire nodes wc = wc := by
    unfold updateWire
    rw [lookupNode_eq_none nodes _ (fun n hn he => hs n hn he)]
  have hnode : nodes.map (updateNode (wires.map (updateWire nodes) ++ [wc])) =
      nodes.map (updateNode (wires.map (updateWire nodes))) := by
    apply List.map_congr_left
    intro n _
    exact updateNode_signal_congr _ _ n
      (fun i => findWirePin_signal_append_false _ wc hst n.id i)
  have hflag : decide ((wires.map (updateWire nodes) ++ [wc]) = (wires ++ [wc])) =
      decide (wires.map (updateWire nodes) = wires) := by
    apply decide_eq_decide.mpr
    constructor
    · intro he
      exact (List.append_inj' he rfl).1
    · intro he
      rw [he]
  show ((wires ++ [wc]).map (updateWire nodes) |> fun ws' =>
    (nodes.map (updateNode ws'), ws',
      decide (ws' = (wires ++ [wc])) &&
        decide ((nodes.map (updateNode ws')).map (fun n => n.state) =
          nodes.map (fun n => n.state)))) = _
  simp only [List.map_append, List.map_cons, List.map_nil, hwc]
  rw [hnode, hflag]
  rfl

theorem roundOnce_fst_ids (nodes : List CircuitNode) (wires : List Wire) :
    (roundOnce nodes wires).1.map (fun n => n.id) = nodes.map (fun n => n.id) := by
  show (nodes.map (updateNode (wires.map (updateWire nodes)))).map (fun n => n.id) = _
  rw [List.map_map]
  exact List.map_congr_left (fun n _ => updateNode_id _ n)

theorem mem_id_of_map_ids {ns nodes : List CircuitNode}
    (hids : ns.map (fun n => n.id) = nodes.map (fun n => n.id))
    (hall : ∀ n ∈ nodes, n.id ≠ x) : ∀ n ∈ ns, n.id ≠ x := by
  intro n hn
  have : n.id ∈ nodes.map (fun n => n.id) := by
    rw [← hids]
    exact List.mem_map_of_mem _ hn
  rw [List.mem_map] at this
  obtain ⟨m, hm, he⟩ := this
  rw [← he]
  exact hall m hm

/-- A connection with a missing source id and a false cached state is
carried along unchanged by the whole loop and affects nothing. -/
theorem propagateLoop_append_ghost : ∀ (fuel : Nat) (nodes : List CircuitNode)
    (wires : List Wire) (wc : Wire), (∀ n ∈ nodes, n.id ≠ wc.sourceNodeId) →
    wc.state = false →
    propagateLoop fuel nodes (wires ++ [wc]) =
      ((propagateLoop fuel nodes wires).1, (propagateLoop fuel nodes wires).2 ++ [wc]) := by
  intro fuel
  induction fuel with
  | zero => intro nodes wires wc _ _; rfl
  | succ fuel ih =>
    intro nodes wires wc hs hst
    rcases hr : roundOnce nodes wires with ⟨ns, ws, st⟩
    have hdec := roundOnce_append_ghost nodes wires wc hs hst
    rw [hr] at hdec
    rw [propagateLoop_succ, hdec, propagateLoop_succ, hr]
    simp only
    cases st with
    | true => rfl
    | false =>
      simp only [Bool.false_eq_true, if_false]
      apply ih ns ws wc _ hst
      have hids : ns.map (fun n => n.id) = nodes.map (fun n => n.id) := by
        have := roundOnce_fst_ids nodes wires
        rw [hr] at this
        exact this
      exact mem_id_of_map_ids hids hs

/-- A connection with a missing target id is updated alongside the loop
but never read back: the loop's node results and other wire results are
unchanged. -/
theorem propagateLoop_append_missing_target : ∀ (fuel : Nat) (nodes : List CircuitNode)
    (wires : List Wire) (wc : Wire), (∀ n ∈ nodes, n.id ≠ wc.targetNodeId) →
    ∃ wcf : Wire, propagateLoop fuel nodes (wires ++ [wc]) =
      ((propagateLoop fuel nodes wires).1, (propagateLoop fuel nodes wires).2 ++ [wcf]) ∧
      wcf.targetNodeId = wc.targetNodeId := by
  intro fuel
  induction fuel with
  | zero => intro nodes wires wc _; exact ⟨wc, rfl, rfl⟩
  | succ fuel ih =>
    intro nodes wires wc ht
    rcases hr : roundOnce nodes wires with ⟨ns, ws, st⟩
    have hdec := roundOnce_append_missing_target nodes wires wc ht
    rw [hr] at hdec
    rw [propagateLoop_succ, hdec, propagateLoop_succ, hr]
    simp only
    have hids : ns.map (fun n => n.id) = nodes.map (fun n => n.id) := by
      have := roundOnce_fst_ids nodes wires
      rw [hr] at this
      exact this
    have hns : ∀ n ∈ ns, n.id ≠ (updateWire nodes wc).targetNodeId := by
      rw [updateWire_target]
      exact mem_id_of_map_ids hids ht
    cases st with
    | false =>
      simp only [Bool.false_and, Bool.false_eq_true, if_false]
      obtain ⟨wcf, he, htg⟩ := ih ns ws (updateWire nodes wc) hns
      exact ⟨wcf, he, htg.trans (updateWire_target nodes wc)⟩
    | true =>
      cases hd : decide (updateWire nodes wc = wc) with
      | true =>
        simp only [Bool.true_and, hd, if_true]
        exact ⟨updateWire nodes wc, rfl, updateWire_target nodes wc⟩
      | false =>
        simp only [Bool.true_and, hd, Bool.false_eq_true, if_false, if_true]
        have hstable : roundOnce ns ws = (ns, ws, true) :=
          roundOnce_stable_fixed nodes ns wires ws hr
        cases fuel with
        | zero => exact ⟨updateWire nodes wc, rfl, updateWire_target nodes wc⟩
        | succ fuel2 =>
          have hdec2 := roundOnce_append_missing_target ns ws (updateWire nodes wc) hns
          rw [hstable] at hdec2
          have hfix : updateWire ns (updateWire nodes wc) = updateWire nodes wc := by
            have hlk := roundOnce_stable_lookup nodes ns wires ws hr
            rw [updateWire_congr ns nodes _ hlk]
            exact updateWire_idem nodes wc
          rw [hfix] at hdec2
          rw [propagateLoop_succ, hdec2]
          exact ⟨updateWire nodes wc, by simp, updateWire_target nodes wc⟩

theorem findWirePin_insert_not_target (ws1 ws2 : List Wire) (w : Wire) (nid : String)
    (i : Nat) (h : w.targetNodeId ≠ nid) :
    findWirePin (ws1 ++ w :: ws2) nid i = findWirePin (ws1 ++ ws2) nid i := by
  unfold findWirePin
  rw [List.filter_append, List.filter_append, List.filter_cons_of_neg (by simp [h])]

theorem roundOnce_insert_missing_target (nodes : List CircuitNode) (ws1 ws2 : List Wire)
    (wc : Wire) (h : ∀ n ∈ nodes, n.id ≠ wc.targetNodeId) :
    roundOnce nodes (ws1 ++ wc :: ws2) =
      ((roundOnce nodes (ws1 ++ ws2)).1,
       ws1.map (updateWire nodes) ++ updateWire nodes wc :: ws2.map (updateWire nodes),
       ((roundOnce nodes (ws1 ++ ws2)).2.2 && decide (updateWire nodes wc = wc))) := by
  have hnode : nodes.map (updateNode
      (ws1.map (updateWire nodes) ++ updateWire nodes wc :: ws2.map (updateWire nodes))) =
      nodes.map (updateNode ((ws1 ++ ws2).map (updateWire nodes))) := by
    apply List.map_congr_left
    intro n hn
    apply updateNode_signal_congr
    intro i
    rw [List.map_append]
    rw [findWirePin_insert_not_target]
    rw [updateWire_target]
    exact fun he => h n hn he.symm
  have hflag : decide ((ws1.map (updateWire nodes) ++
      updateWire nodes wc :: ws2.map (updateWire nodes)) = (ws1 ++ wc :: ws2)) =
      (decide ((ws1 ++ ws2).map (updateWire nodes) = (ws1 ++ ws2)) &&
        decide (updateWire nodes wc = wc)) := by
    rw [← Bool.decide_and]
    apply decide_eq_decide.mpr
    constructor
    · intro he
      obtain ⟨h1, h2⟩ := List.append_inj he (by simp)
      rw [List.cons.injEq] at h2
      refine ⟨?_, h2.1⟩
      rw [List.map_append, h1, h2.2]
    · intro he
      obtain ⟨he1, he2⟩ := he
      rw [List.map_append] at he1
      obtain ⟨h1, h2⟩ := List.append_inj he1 (by simp)
      rw [h1, h2, he2]
  show ((ws1 ++ wc :: ws2).map (updateWire nodes) |> fun ws' =>
    (nodes.map (updateNode ws'), ws',
      decide (ws' = (ws1 ++ wc :: ws2)) &&
        decide ((nodes.map (updateNode ws')).map (fun n => n.state) =
          nodes.map (fun n => n.state)))) = _
  simp only [List.map_append, List.map_cons]
  rw [hnode, hflag]
  show (_, _, (decide ((ws1 ++ ws2).map (updateWire nodes) = (ws1 ++ ws2)) &&
      decide (updateWire nodes wc = wc)) && _) = _
  rw [Bool.and_assoc, Bool.and_comm (decide (updateWire nodes wc = wc)) _, ← Bool.and_assoc]
  rfl

theorem propagateLoop_insert_missing_target : ∀ (fuel : Nat) (nodes : List CircuitNode)
    (ws1 ws2 : List Wire) (wc : Wire), (∀ n ∈ nodes, n.id ≠ wc.targetNodeId) →
    ∃ wcf : Wire, propagateLoop fuel nodes (ws1 ++ wc :: ws2) =
      ((propagateLoop fuel nodes (ws1 ++ ws2)).1,
       (propagateLoop fuel nodes (ws1 ++ ws2)).2.take ws1.length ++
         wcf :: (propagateLoop fuel nodes (ws1 ++ ws2)).2.drop ws1.length) ∧
      wcf.targetNodeId = wc.targetNodeId := by
  intro fuel
  induction fuel with
  | zero =>
    intro nodes ws1 ws2 wc _
    refine ⟨wc, ?_, rfl⟩
    show (nodes, ws1 ++ wc :: ws2) =
      (nodes, (ws1 ++ ws2).take ws1.length ++ wc :: (ws1 ++ ws2).drop ws1.length)
    rw [List.take_left' rfl, List.drop_left' rfl]
  | succ fuel ih =>
    intro nodes ws1 ws2 wc ht
    rcases hr : roundOnce nodes (ws1 ++ ws2) with ⟨ns, ws, st⟩
    have hdec := roundOnce_insert_missing_target nodes ws1 ws2 wc ht
    rw [hr] at hdec
    rw [propagateLoop_succ, hdec, propagateLoop_succ, hr]
    simp only
    have hws : ws = ws1.map (updateWire nodes) ++ ws2.map (updateWire nodes) := by
      have h0 : ws = (ws1 ++ ws2).map (updateWire nodes) :=
        (congrArg (fun p => p.2.1) hr).symm
      rw [h0, List.map_append]
    have hids : ns.map (fun n => n.id) = nodes.map (fun n => n.id) := by
      have := roundOnce_fst_ids nodes (ws1 ++ ws2)
      rw [hr] at this
      exact this
    have hns : ∀ n ∈ ns, n.id ≠ (updateWire nodes wc).targetNodeId := by
      rw [updateWire_target]
      exact mem_id_of_map_ids hids ht
    cases st with
    | false =>
      simp only [Bool.false_and, Bool.false_eq_true, if_false]
      obtain ⟨wcf, he, htg⟩ := ih ns (ws1.map (updateWire nodes)) (ws2.map (updateWire nodes))
        (updateWire nodes wc) hns
      rw [List.length_map] at he
      rw [hws]
      exact ⟨wcf, he, htg.trans (updateWire_target nodes wc)⟩
    | true =>
      cases hd : decide (updateWire nodes wc = wc) with
      | true =>
        simp only [Bool.true_and, hd, if_true]
        refine ⟨updateWire nodes wc, ?_, updateWire_target nodes wc⟩
        rw [hws, List.take_left' (by rw [List.length_map]),
          List.drop_left' (by rw [List.length_map])]
      | false =>
        simp only [Bool.true_and, hd, Bool.false_eq_true, if_false, if_true]
        have hstable : roundOnce ns ws = (ns, ws, true) :=
          roundOnce_stable_fixed nodes ns (ws1 ++ ws2) ws hr
        cases fuel with
        | zero =>
          refine ⟨updateWire nodes wc, ?_, updateWire_target nodes wc⟩
          show (ns, ws1.map (updateWire nodes) ++
              updateWire nodes wc :: ws2.map (updateWire nodes)) = _
          rw [hws, List.take_left' (by rw [List.length_map]),
            List.drop_left' (by rw [List.length_map])]
        | succ fuel2 =>
          have hdec2 := roundOnce_insert_missing_target ns (ws1.map (updateWire nodes))
            (ws2.map (updateWire nodes)) (updateWire nodes wc) hns
          rw [← hws, hstable] at hdec2
          simp only at hdec2
          have hwsfix : ws.map (updateWire ns) = ws := congrArg (fun p => p.2.1) hstable
          have hfix : updateWire ns (updateWire nodes wc) = updateWire nodes wc := by
            have hlk := roundOnce_stable_lookup nodes ns (ws1 ++ ws2) ws hr
            rw [updateWire_congr ns nodes _ hlk]
            exact updateWire_idem nodes wc
          have hparts : (ws1.map (updateWire nodes)).map (updateWire ns) =
              ws1.map (updateWire nodes) ∧
              (ws2.map (updateWire nodes)).map (updateWire ns) =
              ws2.map (updateWire nodes) := by
            have h0 : (ws1.map (updateWire nodes)).map (updateWire ns) ++
                (ws2.map (updateWire nodes)).map (updateWire ns) =
                ws1.map (updateWire nodes) ++ ws2.map (updateWire nodes) := by
              rw [← List.map_append, ← hws, hwsfix, hws]
            exact List.append_inj h0 (by simp)
          rw [hparts.1, hparts.2, hfix] at hdec2
          rw [propagateLoop_succ, hdec2]
          simp only [decide_True, Bool.and_true, if_true]
          refine ⟨updateWire nodes wc, ?_, updateWire_target nodes wc⟩
          show (ns, ws1.map (updateWire nodes) ++
              updateWire nodes wc :: ws2.map (updateWire nodes)) = _
          rw [hws, List.take_left' (by rw [List.length_map]),
            List.drop_left' (by rw [List.length_map])]

theorem propagateLoop_ghost_retained : ∀ (fuel : Nat) (nodes : List CircuitNode)
    (ws1 ws2 : List Wire) (wc : Wire), (∀ n ∈ nodes, n.id ≠ wc.sourceNodeId) →
    ∃ u1 u2 : List Wire, (propagateLoop fuel nodes (ws1 ++ wc :: ws2)).2 = u1 ++ wc :: u2 ∧
      u1.length = ws1.length := by
  intro fuel
  induction fuel with
  | zero =>
    intro nodes ws1 ws2 wc _
    exact ⟨ws1, ws2, rfl, rfl⟩
  | succ fuel ih =>
    intro nodes ws1 ws2 wc hs
    have hwc : updateWire nodes wc = wc := by
      unfold updateWire
      rw [lookupNode_eq_none nodes _ (fun n hn he => hs n hn he)]
    rcases hr : roundOnce nodes (ws1 ++ wc :: ws2) with ⟨ns, ws', st⟩
    have hws' : ws' = ws1.map (updateWire nodes) ++ wc :: ws2.map (updateWire nodes) := by
      have h0 : ws' = (ws1 ++ wc :: ws2).map (updateWire nodes) :=
        (congrArg (fun p => p.2.1) hr).symm
      rw [h0, List.map_append, List.map_cons, hwc]
    have hids : ns.map (fun n => n.id) = nodes.map (fun n => n.id) := by
      have := roundOnce_fst_ids nodes (ws1 ++ wc :: ws2)
      rw [hr] at this
      exact this
    rw [propagateLoop_succ, hr]
    simp only
    cases st with
    | true =>
      simp only [if_true]
      exact ⟨ws1.map (updateWire nodes), ws2.map (updateWire nodes), by rw [hws'], by simp⟩
    | false =>
      simp only [Bool.false_eq_true, if_false]
      obtain ⟨u1, u2, heq, hlen⟩ := ih ns (ws1.map (updateWire nodes))
        (ws2.map (updateWire nodes)) wc (mem_id_of_map_ids hids hs)
      rw [hws']
      exact ⟨u1, u2, heq, by rw [hlen, List.length_map]⟩


/-- C7 (amended): stabilization always completes and treats dangling
connection references defensively, at any position in the connection
list.  A connection whose target id matches no element is never read
back: element results and all other connection results are exactly those
of the snapshot without it.  A connection whose source id matches no
element is skipped only by the wire phase: it retains its cached state at
any position, but input resolution still reads it like a live connection
(the first listed connection targeting a pin supplies that pin), so a
cached-false ghost listed before a live connection on the same pin
shadows it and changes element results; only listed last with a false
cached state does it leave the rest of the result unchanged. -/
theorem propagateCircuit_dangling :
    (∀ (nodes : List CircuitNode) (ws1 ws2 : List Wire) (w : Wire),
      (∀ n ∈ nodes, n.id ≠ w.targetNodeId) →
        ∃ wf : Wire, propagateCircuit nodes (ws1 ++ w :: ws2) =
          ((propagateCircuit nodes (ws1 ++ ws2)).1,
           (propagateCircuit nodes (ws1 ++ ws2)).2.take ws1.length ++
             wf :: (propagateCircuit nodes (ws1 ++ ws2)).2.drop ws1.length)) ∧
    (∀ (nodes : List CircuitNode) (ws1 ws2 : List Wire) (w : Wire),
      (∀ n ∈ nodes, n.id ≠ w.sourceNodeId) →
        ∃ u1 u2 : List Wire, (propagateCircuit nodes (ws1 ++ w :: ws2)).2 = u1 ++ w :: u2 ∧
          u1.length = ws1.length) ∧
    (∀ (nodes : List CircuitNode) (wires : List Wire) (w : Wire),
      (∀ n ∈ nodes, n.id ≠ w.sourceNodeId) → w.state = false →
        propagateCircuit nodes (wires ++ [w]) =
          ((propagateCircuit nodes wires).1, (propagateCircuit nodes wires).2 ++ [w])) ∧
    ((propagateCircuit
      [{ id := "s", type := GateType.INPUT_SWITCH, position := (0, 0), state := true,
         inputs := [], width := 50, height := 50, label := "SW" },
       { id := "q", type := GateType.OUTPUT_LAMP, position := (1, 0), state := false,
         inputs := [false], width := 50, height := 50, label := "Q" }]
      [{ id := "gw", sourceNodeId := "zz", sourcePinIndex := 0, targetNodeId := "q",
         targetPinIndex := 0, state := false },
       { id := "w", sourceNodeId := "s", sourcePinIndex := 0, targetNodeId := "q",
         targetPinIndex := 0, state := false }]).1.map (fun n => n.state) ≠
     (propagateCircuit
      [{ id := "s", type := GateType.INPUT_SWITCH, position := (0, 0), state := true,
         inputs := [], width := 50, height := 50, label := "SW" },
       { id := "q", type := GateType.OUTPUT_LAMP, position := (1, 0), state := false,
         inputs := [false], width := 50, height := 50, label := "Q" }]
      [{ id := "w", sourceNodeId := "s", sourcePinIndex := 0, targetNodeId := "q",
         targetPinIndex := 0, state := false }]).1.map (fun n => n.state)) := by
  refine ⟨?_, ?_, ?_, ?_⟩
  · intro nodes ws1 ws2 w ht
    obtain ⟨wf, he, _⟩ := propagateLoop_insert_missing_target 20 nodes ws1 ws2 w ht
    exact ⟨wf, he⟩
  · intro nodes ws1 ws2 w hs
    exact propagateLoop_ghost_retained 20 nodes ws1 ws2 w hs
  · intro nodes wires w hs hst
    exact propagateLoop_append_ghost 20 nodes wires w hs hst
  · decide

/-- Witness for the amended C7 on a one-lamp snapshot: a ghost-target
connection inserted before a live connection, a ghost-source connection
inserted after one, and a cached-false ghost-source connection appended
last. -/
theorem propagateCircuit_dangling_witness :
    (∀ n ∈ [{ id := "q", type := GateType.OUTPUT_LAMP, position := (0, 0), state := false,
              inputs := [false], width := 50, height := 50, label := "Q" : CircuitNode }],
      CircuitNode.id n ≠ "zz") ∧
    (∃ wf : Wire, propagateCircuit
      [{ id := "q", type := GateType.OUTPUT_LAMP, position := (0, 0), state := false,
         inputs := [false], width := 50, height := 50, label := "Q" }]
      ([] ++ { id := "gt", sourceNodeId := "q", sourcePinIndex := 0, targetNodeId := "zz",
               targetPinIndex := 0, state := false : Wire } ::
         [{ id := "wl", sourceNodeId := "q", sourcePinIndex := 0, targetNodeId := "q",
            targetPinIndex := 0, state := false }]) =
      ((propagateCircuit
        [{ id := "q", type := GateType.OUTPUT_LAMP, position := (0, 0), state := false,
           inputs := [false], width := 50, height := 50, label := "Q" }]
        ([] ++ [{ id := "wl", sourceNodeId := "q", sourcePinIndex := 0, targetNodeId := "q",
                  targetPinIndex := 0, state := false }])).1,
       (propagateCircuit
        [{ id := "q", type := GateType.OUTPUT_LAMP, position := (0, 0), state := false,
           inputs := [false], width := 50, height := 50, label := "Q" }]
        ([] ++ [{ id := "wl", sourceNodeId := "q", sourcePinIndex := 0, targetNodeId := "q",
                  targetPinIndex := 0, state := false }])).2.take
          (List.length ([] : List Wire)) ++
         wf :: (propagateCircuit
        [{ id := "q", type := GateType.OUTPUT_LAMP, position := (0, 0), state := false,
           inputs := [false], width := 50, height := 50, label := "Q" }]
        ([] ++ [{ id := "wl", sourceNodeId := "q", sourcePinIndex := 0, targetNodeId := "q",
                  targetPinIndex := 0, state := false }])).2.drop
          (List.length ([] : List Wire)))) ∧
    (∃ u1 u2 : List Wire, (propagateCircuit
      [{ id := "q", type := GateType.OUTPUT_LAMP, position := (0, 0), state := false,
         inputs := [false], width := 50, height := 50, label := "Q" }]
      ([{ id := "wl", sourceNodeId := "q", sourcePinIndex := 0, targetNodeId := "q",
          targetPinIndex := 0, state := false }] ++
        { id := "gw", sourceNodeId := "zz", sourcePinIndex := 0, targetNodeId := "q",
          targetPinIndex := 0, state := true : Wire } :: [])).2 =
      u1 ++ { id := "gw", sourceNodeId := "zz", sourcePinIndex := 0, targetNodeId := "q",
              targetPinIndex := 0, state := true : Wire } :: u2 ∧
      u1.length = List.length
        [{ id := "wl", sourceNodeId := "q", sourcePinIndex := 0, targetNodeId := "q",
           targetPinIndex := 0, state := false : Wire }]) ∧
    (propagateCircuit
      [{ id := "q", type := GateType.OUTPUT_LAMP, position := (0, 0), state := false,
         inputs := [false], width := 50, height := 50, label := "Q" }]
      ([] ++ [{ id := "gf", sourceNodeId := "zz", sourcePinIndex := 0, targetNodeId := "q",
                targetPinIndex := 0, state := false }]) =
      ((propagateCircuit
        [{ id := "q", type := GateType.OUTPUT_LAMP, position := (0, 0), state := false,
           inputs := [false], width := 50, height := 50, label := "Q" }] []).1,
       (propagateCircuit
        [{ id := "q", type := GateType.OUTPUT_LAMP, position := (0, 0), state := false,
           inputs := [false], width := 50, height := 50, label := "Q" }] []).2 ++
        [{ id := "gf", sourceNodeId := "zz", sourcePinIndex := 0, targetNodeId := "q",
           targetPinIndex := 0, state := false }])) :=
  ⟨by decide,
   propagateCircuit_dangling.1 _ [] _ _ (by decide),
   propagateCircuit_dangling.2.1 _ _ [] _ (by decide),
   propagateCircuit_dangling.2.2.1 _ [] _ (by decide) rfl⟩


/-- Counterexample to C7 as stated: a connection whose source id matches
no element is skipped by the wire phase but its cached true state still
drives pin 0 of the AND gate it targets, turning the gate on — so it does
affect the evaluation of an element. -/
theorem propagateCircuit_dangling_counterexample :
    (propagateCircuit
      [{ id := "g", type := GateType.AND, position := (0, 0), state := false,
         inputs := [false], width := 120, height := 60, label := "AND" }]
      [{ id := "gw", sourceNodeId := "zz", sourcePinIndex := 0, targetNodeId := "g",
         targetPinIndex := 0, state := true }]).1.map (fun n => n.state) ≠
    (propagateCircuit
      [{ id := "g", type := GateType.AND, position := (0, 0), state := false,
         inputs := [false], width := 120, height := 60, label := "AND" }] []).1.map
      (fun n => n.state) := by
  decide

/-! ### C1 and C6: the Quine-McCluskey minimizer -/

theorem mem_dedupAux {α : Type} [DecidableEq α] :
    ∀ (l acc : List α) (x : α), x ∈ dedupAux acc l ↔ x ∈ acc ∨ x ∈ l := by
  intro l
  induction l with
  | nil => intro acc x; simp [dedupAux]
  | cons y ys ih =>
    intro acc x
    by_cases hy : y ∈ acc
    · rw [dedupAux, if_pos hy, ih]
      constructor
      · rintro (h | h)
        · exact Or.inl h
        · exact Or.inr (List.mem_cons_of_mem y h)
      · rintro (h | h)
        · exact Or.inl h
        · rcases List.mem_cons.mp h with rfl | h
          · exact Or.inl hy
          · exact Or.inr h
    · rw [dedupAux, if_neg hy, ih]
      simp [or_comm, or_assoc]
      tauto

theorem mem_dedupList {α : Type} [DecidableEq α] (l : List α) (x : α) :
    x ∈ dedupList l ↔ x ∈ l := by
  rw [dedupList, mem_dedupAux]
  simp

theorem nodup_dedupAux {α : Type} [DecidableEq α] :
    ∀ (l acc : List α), acc.Nodup → (dedupAux acc l).Nodup := by
  intro l
  induction l with
  | nil => intro acc h; simpa [dedupAux] using h
  | cons y ys ih =>
    intro acc h
    by_cases hy : y ∈ acc
    · rw [dedupAux, if_pos hy]
      exact ih acc h
    · rw [dedupAux, if_neg hy]
      exact ih (y :: acc) (List.nodup_cons.mpr ⟨hy, h⟩)

theorem nodup_dedupList {α : Type} [DecidableEq α] (l : List α) : (dedupList l).Nodup :=
  nodup_dedupAux l [] List.nodup_nil

theorem dedupList_perm_of_perm {α : Type} [DecidableEq α] (l₁ l₂ : List α)
    (h : ∀ x, x ∈ l₁ ↔ x ∈ l₂) : List.Perm (dedupList l₁) (dedupList l₂) := by
  rw [List.perm_ext_iff_of_nodup (nodup_dedupList l₁) (nodup_dedupList l₂)]
  intro x
  rw [mem_dedupList, mem_dedupList]
  exact h x

theorem termMatches_iff : ∀ (t bits : List Char), termMatches t bits = true ↔
    (t.length = bits.length ∧
      ∀ i < t.length, t.getD i ' ' = '-' ∨ t.getD i ' ' = bits.getD i ' ') := by
  intro t
  induction t with
  | nil =>
    intro bits
    cases bits <;> simp [termMatches]
  | cons c cs ih =>
    intro bits
    cases bits with
    | nil => simp [termMatches]
    | cons b bs =>
      rw [termMatches, Bool.and_eq_true, ih bs]
      constructor
      · rintro ⟨hc, hlen, hall⟩
        refine ⟨by simpa using hlen, ?_⟩
        intro i hi
        cases i with
        | zero =>
          rcases Bool.or_eq_true _ _ |>.mp hc with h | h
          · exact Or.inl (by simpa using of_decide_eq_true h)
          · exact Or.inr (by simpa using of_decide_eq_true h)
        | succ j =>
          have := hall j (by simpa using hi)
          simpa using this
      · rintro ⟨hlen, hall⟩
        refine ⟨?_, by simpa using hlen, ?_⟩
        · have := hall 0 (by simp)
          simp only [List.getD_cons_zero] at this
          rcases this with h | h
          · simp [h]
          · simp [h]
        · intro j hj
          have := hall (j + 1) (by simpa using hj)
          simpa using this

theorem termMatches_self (t : List Char) : termMatches t t = true := by
  rw [termMatches_iff]
  exact ⟨rfl, fun i _ => Or.inr rfl⟩

theorem termMatches_nodash_iff (t bits : List Char) (h : ∀ c ∈ t, c ≠ '-') :
    (termMatches t bits = true ↔ t = bits) := by
  constructor
  · intro hm
    rw [termMatches_iff] at hm
    apply List.ext_getElem hm.1
    intro i h1 h2
    have := hm.2 i h1
    rw [List.getD_eq_getElem?_getD, List.getD_eq_getElem?_getD,
      List.getElem?_eq_getElem h1, List.getElem?_eq_getElem h2] at this
    simp only [Option.getD_some] at this
    rcases this with hd | he
    · exact absurd hd (h _ (List.getElem_mem h1))
    · exact he
  · rintro rfl
    exact termMatches_self t

theorem termMatches_replicate (w : Nat) (bits : List Char) :
    termMatches (List.replicate w '-') bits = true ↔ bits.length = w := by
  rw [termMatches_iff, List.length_replicate]
  constructor
  · exact fun h => h.1.symm
  · intro h
    refine ⟨h.symm, fun i hi => Or.inl ?_⟩
    rw [List.getD_eq_getElem?_getD, List.getElem?_replicate, if_pos hi]
    rfl

theorem length_natToBits : ∀ (w m : Nat), (natToBits w m).length = w := by
  intro w
  induction w with
  | zero => intro m; rfl
  | succ w ih => intro m; simp [natToBits, ih]

theorem mem_natToBits : ∀ (w m : Nat), ∀ c ∈ natToBits w m, c = '0' ∨ c = '1' := by
  intro w
  induction w with
  | zero => intro m c hc; simp [natToBits] at hc
  | succ w ih =>
    intro m c hc
    rw [natToBits, List.mem_append] at hc
    rcases hc with hc | hc
    · exact ih (m / 2) c hc
    · rcases List.mem_singleton.mp hc with rfl
      split <;> simp

theorem natToBits_nodash (w m : Nat) : ∀ c ∈ natToBits w m, c ≠ '-' := by
  intro c hc
  rcases mem_natToBits w m c hc with rfl | rfl <;> decide

theorem natToBits_inj : ∀ (w m₁ m₂ : Nat), m₁ < 2 ^ w → m₂ < 2 ^ w →
    natToBits w m₁ = natToBits w m₂ → m₁ = m₂ := by
  intro w
  induction w with
  | zero =>
    intro m₁ m₂ h1 h2 _
    interval_cases m₁ <;> interval_cases m₂ <;> rfl
  | succ w ih =>
    intro m₁ m₂ h1 h2 he
    rw [natToBits, natToBits] at he
    have hlen : (natToBits w (m₁ / 2)).length = (natToBits w (m₂ / 2)).length := by
      rw [length_natToBits, length_natToBits]
    obtain ⟨hpre, hlast⟩ := List.append_inj he hlen
    have hbit : m₁ % 2 = m₂ % 2 := by
      by_cases hb1 : m₁ % 2 = 1 <;> by_cases hb2 : m₂ % 2 = 1
      · rw [hb1, hb2]
      · rw [if_pos hb1, if_neg hb2] at hlast
        exact absurd hlast (by decide)
      · rw [if_neg hb1, if_pos hb2] at hlast
        exact absurd hlast (by decide)
      · omega
    have hdiv : m₁ / 2 = m₂ / 2 := by
      apply ih (m₁ / 2) (m₂ / 2) ?_ ?_ hpre
      · omega
      · omega
    omega

theorem getD_set_self (l : List Char) (i : Nat) (c d : Char) (hi : i < l.length) :
    (l.set i c).getD i d = c := by
  rw [List.getD_eq_getElem?_getD, List.getElem?_set, if_pos rfl, if_pos hi]
  rfl

theorem getD_set_other (l : List Char) (i j : Nat) (c d : Char) (hne : i ≠ j) :
    (l.set i c).getD j d = l.getD j d := by
  rw [List.getD_eq_getElem?_getD, List.getElem?_set, if_neg hne, ← List.getD_eq_getElem?_getD]

theorem combineTerms_self (t : Term) : combineTerms t t = none := by
  unfold combineTerms
  have : (List.range t.length).filter (fun i => decide (t.getD i ' ' ≠ t.getD i ' ')) = [] := by
    rw [List.filter_eq_nil_iff]
    intro a _
    simp
  rw [this]

theorem mem_diffIndices (t1 t2 : Term) (j : Nat) :
    j ∈ (List.range t1.length).filter (fun i => decide (t1.getD i ' ' ≠ t2.getD i ' ')) ↔
    (j < t1.length ∧ t1.getD j ' ' ≠ t2.getD j ' ') := by
  rw [List.mem_filter, List.mem_range, decide_eq_true_eq]

theorem combineTerms_some_spec (t1 t2 c : Term) (h : combineTerms t1 t2 = some c) :
    ∃ i, i < t1.length ∧ c = t1.set i '-' ∧ t1.getD i ' ' ≠ t2.getD i ' ' ∧
      ∀ j, j < t1.length → j ≠ i → t1.getD j ' ' = t2.getD j ' ' := by
  unfold combineTerms at h
  rcases hd : (List.range t1.length).filter
      (fun i => decide (t1.getD i ' ' ≠ t2.getD i ' ')) with _ | ⟨i, rest⟩
  · rw [hd] at h
    exact absurd h (by simp)
  · rcases rest with _ | ⟨i2, rest2⟩
    · rw [hd] at h
      simp only [Option.some.injEq] at h
      have hi : i ∈ (List.range t1.length).filter
          (fun i => decide (t1.getD i ' ' ≠ t2.getD i ' ')) := by rw [hd]; simp
      rw [mem_diffIndices] at hi
      refine ⟨i, hi.1, h.symm, hi.2, ?_⟩
      intro j hj hji
      by_contra hne
      have : j ∈ (List.range t1.length).filter
          (fun i => decide (t1.getD i ' ' ≠ t2.getD i ' ')) := by
        rw [mem_diffIndices]
        exact ⟨hj, hne⟩
      rw [hd] at this
      exact hji (List.mem_singleton.mp this)
    · rw [hd] at h
      exact absurd h (by simp)

theorem combineTerms_length (t1 t2 c : Term) (h : combineTerms t1 t2 = some c) :
    c.length = t1.length := by
  obtain ⟨i, _, rfl, _, _⟩ := combineTerms_some_spec t1 t2 c h
  exact List.length_set t1 i '-'

theorem combineTerms_alphabet (t1 t2 c : Term) (h : combineTerms t1 t2 = some c) :
    ∀ ch ∈ c, ch ∈ t1 ∨ ch = '-' := by
  obtain ⟨i, _, rfl, _, _⟩ := combineTerms_some_spec t1 t2 c h
  exact fun ch hch => List.mem_or_eq_of_mem_set hch

theorem combineTerms_comm (t1 t2 : Term) (hlen : t1.length = t2.length) :
    combineTerms t1 t2 = combineTerms t2 t1 := by
  have hset : ∀ j, (j ∈ (List.range t1.length).filter
      (fun i => decide (t1.getD i ' ' ≠ t2.getD i ' '))) ↔
      (j ∈ (List.range t2.length).filter
        (fun i => decide (t2.getD i ' ' ≠ t1.getD i ' '))) := by
    intro j
    rw [mem_diffIndices, mem_diffIndices, hlen]
    exact and_congr_right (fun _ => ne_comm)
  have hfeq : (List.range t1.length).filter
      (fun i => decide (t1.getD i ' ' ≠ t2.getD i ' ')) =
      (List.range t2.length).filter
        (fun i => decide (t2.getD i ' ' ≠ t1.getD i ' ')) := by
    apply List.eq_of_perm_of_sorted
      ((List.perm_ext_iff_of_nodup
        (List.Nodup.filter _ (List.nodup_range _))
        (List.Nodup.filter _ (List.nodup_range _))).mpr hset)
      (List.Pairwise.sublist (List.filter_sublist _) (List.pairwise_lt_range _))
      (List.Pairwise.sublist (List.filter_sublist _) (List.pairwise_lt_range _))
  unfold combineTerms
  rw [← hfeq]
  rcases hd : (List.range t1.length).filter
      (fun i => decide (t1.getD i ' ' ≠ t2.getD i ' ')) with _ | ⟨i, rest⟩
  · rfl
  · rcases rest with _ | ⟨i2, rest2⟩
    · have hi : i ∈ (List.range t1.length).filter
          (fun i => decide (t1.getD i ' ' ≠ t2.getD i ' ')) := by rw [hd]; simp
      rw [mem_diffIndices] at hi
      have hjeq : ∀ j, j < t1.length → j ≠ i → t1.getD j ' ' = t2.getD j ' ' := by
        intro j hj hji
        by_contra hne
        have : j ∈ (List.range t1.length).filter
            (fun i => decide (t1.getD i ' ' ≠ t2.getD i ' ')) := by
          rw [mem_diffIndices]
          exact ⟨hj, hne⟩
        rw [hd] at this
        exact hji (List.mem_singleton.mp this)
      show some (t1.set i '-') = some (t2.set i '-')
      congr 1
      apply List.ext_getElem (by rw [List.length_set, List.length_set, hlen])
      intro j h1 h2
      rw [List.length_set] at h1 h2
      have e1 : (t1.set i '-')[j] = (t1.set i '-').getD j ' ' := by
        rw [List.getD_eq_getElem?_getD, List.getElem?_eq_getElem (by simpa using h1)]
        rfl
      have e2 : (t2.set i '-')[j] = (t2.set i '-').getD j ' ' := by
        rw [List.getD_eq_getElem?_getD, List.getElem?_eq_getElem (by simpa using h2)]
        rfl
      rw [e1, e2]
      by_cases hij : i = j
      · subst hij
        rw [getD_set_self _ _ _ _ h1, getD_set_self _ _ _ _ h2]
      · rw [getD_set_other _ _ _ _ _ hij, getD_set_other _ _ _ _ _ hij]
        exact hjeq j h1 (fun he => hij he.symm)
    · rfl

/-- The central semantic fact: when two same-length terms over the
{0,1,-} alphabet combine, the combined term covers exactly the union of
what the two terms cover, for any assignment bit string over {0,1}. -/
theorem combineTerms_cover (t1 t2 c : Term) (n : Nat) (h1 : t1.length = n)
    (h2 : t2.length = n) (hc : combineTerms t1 t2 = some c)
    (ha1 : ∀ ch ∈ t1, ch = '0' ∨ ch = '1' ∨ ch = '-')
    (ha2 : ∀ ch ∈ t2, ch = '0' ∨ ch = '1' ∨ ch = '-')
    (bits : List Char) (hb : bits.length = n) (hbc : ∀ ch ∈ bits, ch = '0' ∨ ch = '1') :
    (termMatches c bits = true ↔
      (termMatches t1 bits = true ∨ termMatches t2 bits = true)) := by
  obtain ⟨i, hi, rfl, hdiff, hsame⟩ := combineTerms_some_spec t1 t2 _ hc
  have hgd : ∀ (t : Term) (j : Nat), j < t.length → t.getD j ' ' ∈ t := by
    intro t j hj
    rw [List.getD_eq_getElem?_getD, List.getElem?_eq_getElem hj]
    exact List.getElem_mem hj
  rw [termMatches_iff, termMatches_iff, termMatches_iff, List.length_set, h1, h2, hb]
  have hin : i < n := h1 ▸ hi
  constructor
  · rintro ⟨-, hall⟩
    by_cases hcase : t1.getD i ' ' = '-' ∨ t1.getD i ' ' = bits.getD i ' '
    · left
      refine ⟨rfl, fun j hj => ?_⟩
      by_cases hij : i = j
      · subst hij
        exact hcase
      · have := hall j hj
        rw [getD_set_other _ _ _ _ _ hij] at this
        exact this
    · right
      refine ⟨rfl, fun j hj => ?_⟩
      by_cases hij : i = j
      · subst hij
        push_neg at hcase
        have hch1 := ha1 _ (hgd t1 i hi)
        have hch2 := ha2 _ (hgd t2 i (by omega))
        have hchb := hbc _ (hgd bits i (by omega))
        rcases hch2 with h2c | h2c | h2c
        · rcases hch1 with h1c | h1c | h1c <;> rcases hchb with hBc | hBc <;> simp_all
        · rcases hch1 with h1c | h1c | h1c <;> rcases hchb with hBc | hBc <;> simp_all
        · exact Or.inl h2c
      · have := hall j hj
        rw [getD_set_other _ _ _ _ _ hij] at this
        rw [← hsame j (by omega) (fun he2 => hij he2.symm)]
        exact this
  · rintro (⟨-, hall⟩ | ⟨-, hall⟩)
    · refine ⟨rfl, fun j hj => ?_⟩
      by_cases hij : i = j
      · subst hij
        exact Or.inl (getD_set_self t1 i '-' ' ' hi)
      · rw [getD_set_other _ _ _ _ _ hij]
        exact hall j hj
    · refine ⟨rfl, fun j hj => ?_⟩
      by_cases hij : i = j
      · subst hij
        exact Or.inl (getD_set_self t1 i '-' ' ' hi)
      · rw [getD_set_other _ _ _ _ _ hij]
        rw [hsame j (by omega) (fun he2 => hij he2.symm)]
        exact hall j hj

theorem mem_pairCombos {α : Type} : ∀ (l : List α) (p : α × α),
    p ∈ pairCombos l → p.1 ∈ l ∧ p.2 ∈ l := by
  intro l
  induction l with
  | nil => intro p hp; simp [pairCombos] at hp
  | cons x xs ih =>
    intro p hp
    rw [pairCombos, List.mem_append] at hp
    rcases hp with hp | hp
    · rw [List.mem_map] at hp
      obtain ⟨y, hy, rfl⟩ := hp
      exact ⟨List.mem_cons_self x xs, List.mem_cons_of_mem x hy⟩
    · have := ih p hp
      exact ⟨List.mem_cons_of_mem x this.1, List.mem_cons_of_mem x this.2⟩

theorem pairCombos_complete {α : Type} : ∀ (l : List α), l.Nodup →
    ∀ a b : α, a ∈ l → b ∈ l → a ≠ b →
    (a, b) ∈ pairCombos l ∨ (b, a) ∈ pairCombos l := by
  intro l
  induction l with
  | nil => intro _ a b ha _ _; simp at ha
  | cons x xs ih =>
    intro hnd a b ha hb hne
    rw [List.nodup_cons] at hnd
    rcases List.mem_cons.mp ha with rfl | ha2
    · have hb2 : b ∈ xs := by
        rcases List.mem_cons.mp hb with rfl | h
        · exact absurd rfl hne
        · exact h
      left
      rw [pairCombos, List.mem_append]
      exact Or.inl (List.mem_map_of_mem _ hb2)
    · rcases List.mem_cons.mp hb with rfl | hb2
      · right
        rw [pairCombos, List.mem_append]
        exact Or.inl (List.mem_map_of_mem _ ha2)
      · rcases ih hnd.2 a b ha2 hb2 hne with h | h
        · left
          rw [pairCombos, List.mem_append]
          exact Or.inr h
        · right
          rw [pairCombos, List.mem_append]
          exact Or.inr h

/-- Membership in a generation's combination results, as an order-free
property of the generation's element set. -/
theorem mem_comboResults_iff (cur : List Term) (hnd : cur.Nodup) (n : Nat)
    (hlen : ∀ t ∈ cur, t.length = n) (x : Term) :
    x ∈ comboResults cur ↔ ∃ a ∈ cur, ∃ b ∈ cur, combineTerms a b = some x := by
  rw [comboResults, List.mem_filterMap]
  constructor
  · rintro ⟨p, hp, hc⟩
    have := mem_pairCombos cur p hp
    exact ⟨p.1, this.1, p.2, this.2, hc⟩
  · rintro ⟨a, ha, b, hb, hc⟩
    have hne : a ≠ b := by
      rintro rfl
      rw [combineTerms_self] at hc
      exact Option.noConfusion hc
    rcases pairCombos_complete cur hnd a b ha hb hne with h | h
    · exact ⟨(a, b), h, hc⟩
    · refine ⟨(b, a), h, ?_⟩
      rw [combineTerms_comm b a ((hlen b hb).trans (hlen a ha).symm)]
      exact hc

/-- Membership in a generation's `usedTerms` set, as an order-free
property of the generation's element set. -/
theorem usedInCombo_iff (cur : List Term) (hnd : cur.Nodup) (n : Nat)
    (hlen : ∀ t ∈ cur, t.length = n) (t : Term) (ht : t ∈ cur) :
    usedInCombo cur t = true ↔ ∃ b ∈ cur, (combineTerms t b).isSome := by
  rw [usedInCombo, List.any_eq_true]
  constructor
  · rintro ⟨p, hp, hcond⟩
    rw [Bool.and_eq_true, Bool.or_eq_true, decide_eq_true_eq, decide_eq_true_eq] at hcond
    have hmem := mem_pairCombos cur p hp
    rcases hcond.2 with rfl | rfl
    · exact ⟨p.2, hmem.2, hcond.1⟩
    · refine ⟨p.1, hmem.1, ?_⟩
      rw [combineTerms_comm _ _ ((hlen _ ht).trans (hlen _ hmem.1).symm)]
      exact hcond.1
  · rintro ⟨b, hb, hsome⟩
    have hne : t ≠ b := by
      rintro rfl
      rw [combineTerms_self] at hsome
      exact Bool.noConfusion hsome
    rcases pairCombos_complete cur hnd t b ht hb hne with h | h
    · refine ⟨(t, b), h, ?_⟩
      rw [Bool.and_eq_true, Bool.or_eq_true, decide_eq_true_eq, decide_eq_true_eq]
      exact ⟨hsome, Or.inl rfl⟩
    · refine ⟨(b, t), h, ?_⟩
      rw [Bool.and_eq_true, Bool.or_eq_true, decide_eq_true_eq, decide_eq_true_eq]
      refine ⟨?_, Or.inr rfl⟩
      rw [combineTerms_comm b t ((hlen b hb).trans (hlen t ht).symm)]
      exact hsome

/-- Invariant preservation and coverage for the combination loop: every
term ever held covers only minterms of `l`, and every minterm of `l`
stays covered by some held term. -/
theorem qmLoop_invariant (l : List Nat) (n : Nat) (hl : ∀ m ∈ l, m < 2 ^ n) :
    ∀ (fuel : Nat) (pis cur : List Term),
    cur.Nodup →
    (∀ t ∈ pis, t.length = n ∧ (∀ ch ∈ t, ch = '0' ∨ ch = '1' ∨ ch = '-') ∧
      ∀ a, a < 2 ^ n → termMatches t (natToBits n a) = true → a ∈ l) →
    (∀ t ∈ cur, t.length = n ∧ (∀ ch ∈ t, ch = '0' ∨ ch = '1' ∨ ch = '-') ∧
      ∀ a, a < 2 ^ n → termMatches t (natToBits n a) = true → a ∈ l) →
    (∀ a ∈ l, ∃ t ∈ pis ++ cur, termMatches t (natToBits n a) = true) →
    (∀ t ∈ qmLoop fuel pis cur, t.length = n ∧
      (∀ ch ∈ t, ch = '0' ∨ ch = '1' ∨ ch = '-') ∧
      ∀ a, a < 2 ^ n → termMatches t (natToBits n a) = true → a ∈ l) ∧
    (∀ a ∈ l, ∃ t ∈ qmLoop fuel pis cur, termMatches t (natToBits n a) = true) := by
  intro fuel
  induction fuel with
  | zero =>
    intro pis cur _ hpis hcur hcov
    constructor
    · intro t ht
      rcases List.mem_append.mp ht with h | h
      · exact hpis t h
      · exact hcur t h
    · exact hcov
  | succ fuel ih =>
    intro pis cur hnd hpis hcur hcov
    by_cases hemp : cur.isEmpty
    · rw [qmLoop, if_pos hemp]
      have hnil : cur = [] := List.isEmpty_iff.mp hemp
      subst hnil
      refine ⟨hpis, ?_⟩
      intro a ha
      obtain ⟨t, ht, hm⟩ := hcov a ha
      rw [List.append_nil] at ht
      exact ⟨t, ht, hm⟩
    · rw [qmLoop, if_neg hemp]
      simp only
      have hlen : ∀ t ∈ cur, t.length = n := fun t ht => (hcur t ht).1
      have hnextInv : ∀ t ∈ dedupList (comboResults cur), t.length = n ∧
          (∀ ch ∈ t, ch = '0' ∨ ch = '1' ∨ ch = '-') ∧
          ∀ a, a < 2 ^ n → termMatches t (natToBits n a) = true → a ∈ l := by
        intro c hc
        rw [mem_dedupList, mem_comboResults_iff cur hnd n hlen] at hc
        obtain ⟨a, hac, b, hbc, hcomb⟩ := hc
        obtain ⟨ha1, ha2, ha3⟩ := hcur a hac
        obtain ⟨hb1, hb2, hb3⟩ := hcur b hbc
        have hclen : c.length = n := (combineTerms_length a b c hcomb).trans ha1
        refine ⟨hclen, ?_, ?_⟩
        · intro ch hch
          rcases combineTerms_alphabet a b c hcomb ch hch with h | rfl
          · exact ha2 ch h
          · exact Or.inr (Or.inr rfl)
        · intro x hx hm
          have hcov2 := combineTerms_cover a b c n ha1 hb1 hcomb
            (fun ch hch => ha2 ch hch) (fun ch hch => hb2 ch hch)
            (natToBits n x) (length_natToBits n x)
            (fun ch hch => mem_natToBits n x ch hch)
          rcases hcov2.mp hm with h | h
          · exact ha3 x hx h
          · exact hb3 x hx h
      have hpis'Inv : ∀ t ∈ pis ++ ((cur.filter (fun t => !(usedInCombo cur t))).filter
          (fun t => !(decide (t ∈ pis)))), t.length = n ∧
          (∀ ch ∈ t, ch = '0' ∨ ch = '1' ∨ ch = '-') ∧
          ∀ a, a < 2 ^ n → termMatches t (natToBits n a) = true → a ∈ l := by
        intro t ht
        rcases List.mem_append.mp ht with h | h
        · exact hpis t h
        · exact hcur t (List.mem_of_mem_filter (List.mem_of_mem_filter h))
      have hcov' : ∀ a ∈ l, ∃ t ∈ (pis ++ ((cur.filter (fun t => !(usedInCombo cur t))).filter
          (fun t => !(decide (t ∈ pis))))) ++ dedupList (comboResults cur),
          termMatches t (natToBits n a) = true := by
        intro a ha
        obtain ⟨t, ht, hm⟩ := hcov a ha
        rcases List.mem_append.mp ht with h | h
        · exact ⟨t, List.mem_append_left _ (List.mem_append_left _ h), hm⟩
        · by_cases hused : usedInCombo cur t = true
          · rw [usedInCombo_iff cur hnd n hlen t h] at hused
            obtain ⟨b, hb, hsome⟩ := hused
            rcases ho : combineTerms t b with _ | c
            · rw [ho] at hsome
              exact Bool.noConfusion hsome
            · have hcmem : c ∈ dedupList (comboResults cur) := by
                rw [mem_dedupList, mem_comboResults_iff cur hnd n hlen]
                exact ⟨t, h, b, hb, ho⟩
              have hcov2 := combineTerms_cover t b c n (hlen t h) (hlen b hb) ho
                (fun ch hch => (hcur t h).2.1 ch hch) (fun ch hch => (hcur b hb).2.1 ch hch)
                (natToBits n a) (length_natToBits n a)
                (fun ch hch => mem_natToBits n a ch hch)
              exact ⟨c, List.mem_append_right _ hcmem, hcov2.mpr (Or.inl hm)⟩
          · by_cases hinp : t ∈ pis
            · exact ⟨t, List.mem_append_left _ (List.mem_append_left _ hinp), hm⟩
            · refine ⟨t, List.mem_append_left _ (List.mem_append_right _ ?_), hm⟩
              rw [List.mem_filter, List.mem_filter]
              refine ⟨⟨h, ?_⟩, ?_⟩
              · rw [Bool.not_eq_true']
                exact Bool.not_eq_true _ ▸ (Bool.eq_false_iff.mpr hused)
              · simp [hinp]
      by_cases hne : (dedupList (comboResults cur)).isEmpty
      · rw [if_pos hne]
        have hnil : dedupList (comboResults cur) = [] := List.isEmpty_iff.mp hne
        refine ⟨hpis'Inv, ?_⟩
        intro a ha
        obtain ⟨t, ht, hm⟩ := hcov' a ha
        rw [hnil, List.append_nil] at ht
        exact ⟨t, ht, hm⟩
      · rw [if_neg hne]
        exact ih _ _ (nodup_dedupList _) hpis'Inv hnextInv hcov'

/-- C1: for `numVars ∈ {1,2,3,4}` and a duplicate-free minterm set drawn
from `[0, 2^numVars)`, the OR of the terms returned by
`solveQuineMcCluskey` is satisfied by exactly the assignments in the set
(soundness and completeness of the prime-implicant cover). -/
theorem solveQuineMcCluskey_cover (n : Nat) (hn : 1 ≤ n ∧ n ≤ 4) (l : List Nat)
    (hnd : l.Nodup) (hlt : ∀ m ∈ l, m < 2 ^ n) (a : Nat) (ha : a < 2 ^ n) :
    (∃ t ∈ solveQuineMcCluskey n l, termMatches t (natToBits n a) = true) ↔ a ∈ l := by
  unfold solveQuineMcCluskey
  by_cases hemp : l.length = 0
  · rw [if_pos hemp]
    have : l = [] := List.length_eq_zero.mp hemp
    subst this
    simp
  · rw [if_neg hemp]
    by_cases hfull : l.length = 2 ^ n
    · rw [if_pos hfull]
      have hsub : l.toFinset ⊆ Finset.range (2 ^ n) := by
        intro x hx
        rw [Finset.mem_range]
        exact hlt x (List.mem_toFinset.mp hx)
      have hcard : (Finset.range (2 ^ n)).card ≤ l.toFinset.card := by
        rw [Finset.card_range, List.toFinset_card_of_nodup hnd, hfull]
      have hall : l.toFinset = Finset.range (2 ^ n) :=
        Finset.eq_of_subset_of_card_le hsub hcard
      have hmem : a ∈ l := by
        rw [← List.mem_toFinset, hall, Finset.mem_range]
        exact ha
      constructor
      · intro _
        exact hmem
      · intro _
        refine ⟨List.replicate n '-', by simp, ?_⟩
        rw [termMatches_replicate]
        exact length_natToBits n a
    · rw [if_neg hfull]
      have hperm := List.perm_insertionSort
        (fun a b : Term => a ≤ b)
        (qmLoop (n + 1) [] (dedupList (l.map (fun m => natToBits n m))))
      have hinv := qmLoop_invariant l n hlt (n + 1) []
        (dedupList (l.map (fun m => natToBits n m)))
        (nodup_dedupList _)
        (by intro t ht; simp at ht)
        ?_ ?_
      · constructor
        · rintro ⟨t, ht, hm⟩
          rw [sortTerms, List.Perm.mem_iff hperm] at ht
          exact (hinv.1 t ht).2.2 a ha hm
        · intro hmem
          obtain ⟨t, ht, hm⟩ := hinv.2 a hmem
          refine ⟨t, ?_, hm⟩
          rw [sortTerms, List.Perm.mem_iff hperm]
          exact ht
      · intro t ht
        rw [mem_dedupList, List.mem_map] at ht
        obtain ⟨m, hm, rfl⟩ := ht
        refine ⟨length_natToBits n m, ?_, ?_⟩
        · intro ch hch
          rcases mem_natToBits n m ch hch with h | h
          · exact Or.inl h
          · exact Or.inr (Or.inl h)
        · intro x hx hmt
          have := (termMatches_nodash_iff _ _ (natToBits_nodash n m)).mp hmt
          have := natToBits_inj n m x (hlt m hm) hx this
          rw [← this]
          exact hm
      · intro x hx
        refine ⟨natToBits n x, ?_, termMatches_self _⟩
        rw [List.nil_append, mem_dedupList, List.mem_map]
        exact ⟨x, hx, rfl⟩

/-- Witness for C1 at `numVars = 1`, minterm set `{0}`, assignment `0`. -/
theorem solveQuineMcCluskey_cover_witness :
    (∃ t ∈ solveQuineMcCluskey 1 [0], termMatches t (natToBits 1 0) = true) ↔ 0 ∈ [0] :=
  solveQuineMcCluskey_cover 1 (by decide) [0] (by decide) (by decide) 0 (by decide)

/-- The combination loop's result set depends only on the sets of prime
implicants and of current-generation terms, not on their order. -/
theorem qmLoop_perm (n : Nat) : ∀ (fuel : Nat) (pis₁ pis₂ cur₁ cur₂ : List Term),
    List.Perm pis₁ pis₂ → List.Perm cur₁ cur₂ → cur₁.Nodup →
    (∀ t ∈ cur₁, t.length = n) →
    List.Perm (qmLoop fuel pis₁ cur₁) (qmLoop fuel pis₂ cur₂) := by
  intro fuel
  induction fuel with
  | zero =>
    intro pis₁ pis₂ cur₁ cur₂ hp hc _ _
    exact List.Perm.append hp hc
  | succ fuel ih =>
    intro pis₁ pis₂ cur₁ cur₂ hp hc hnd hlen
    have hnd₂ : cur₂.Nodup := hc.nodup hnd
    have hlen₂ : ∀ t ∈ cur₂, t.length = n := fun t ht => hlen t (hc.mem_iff.mpr ht)
    by_cases hemp : cur₁.isEmpty
    · have he₁ : cur₁ = [] := List.isEmpty_iff.mp hemp
      have he₂ : cur₂ = [] := List.eq_nil_of_length_eq_zero (by
        rw [← hc.length_eq, he₁]; rfl)
      rw [qmLoop, qmLoop, if_pos hemp, if_pos (by rw [he₂]; rfl)]
      exact hp
    · have hemp₂ : ¬ cur₂.isEmpty = true := by
        intro h
        have := List.isEmpty_iff.mp h
        rw [this] at hc
        rw [List.isEmpty_iff] at hemp
        exact hemp (List.eq_nil_of_length_eq_zero (by rw [hc.length_eq]; rfl))
      rw [qmLoop, qmLoop, if_neg hemp, if_neg hemp₂]
      simp only
      have hcombo : ∀ x, x ∈ comboResults cur₁ ↔ x ∈ comboResults cur₂ := by
        intro x
        rw [mem_comboResults_iff cur₁ hnd n hlen, mem_comboResults_iff cur₂ hnd₂ n hlen₂]
        constructor
        · rintro ⟨a, ha, b, hb, hcb⟩
          exact ⟨a, hc.mem_iff.mp ha, b, hc.mem_iff.mp hb, hcb⟩
        · rintro ⟨a, ha, b, hb, hcb⟩
          exact ⟨a, hc.mem_iff.mpr ha, b, hc.mem_iff.mpr hb, hcb⟩
      have hnextp : List.Perm (dedupList (comboResults cur₁))
          (dedupList (comboResults cur₂)) := dedupList_perm_of_perm _ _ hcombo
      have hused : ∀ t ∈ cur₂, usedInCombo cur₁ t = usedInCombo cur₂ t := by
        intro t ht
        rw [Bool.eq_iff_iff,
          usedInCombo_iff cur₁ hnd n hlen t (hc.mem_iff.mpr ht),
          usedInCombo_iff cur₂ hnd₂ n hlen₂ t ht]
        constructor
        · rintro ⟨b, hb, hs⟩
          exact ⟨b, hc.mem_iff.mp hb, hs⟩
        · rintro ⟨b, hb, hs⟩
          exact ⟨b, hc.mem_iff.mpr hb, hs⟩
      have hemit : List.Perm (cur₁.filter (fun t => !(usedInCombo cur₁ t)))
          (cur₂.filter (fun t => !(usedInCombo cur₂ t))) := by
        have h1 : List.Perm (cur₁.filter (fun t => !(usedInCombo cur₁ t)))
            (cur₂.filter (fun t => !(usedInCombo cur₁ t))) :=
          List.Perm.filter _ hc
        have h2 : cur₂.filter (fun t => !(usedInCombo cur₁ t)) =
            cur₂.filter (fun t => !(usedInCombo cur₂ t)) :=
          List.filter_congr (fun t ht => by rw [hused t ht])
        rw [h2] at h1
        exact h1
      have hpis' : List.Perm
          (pis₁ ++ ((cur₁.filter (fun t => !(usedInCombo cur₁ t))).filter
            (fun t => !(decide (t ∈ pis₁)))))
          (pis₂ ++ ((cur₂.filter (fun t => !(usedInCombo cur₂ t))).filter
            (fun t => !(decide (t ∈ pis₂))))) := by
        refine List.Perm.append hp ?_
        have h1 := List.Perm.filter (fun t => !(decide (t ∈ pis₁))) hemit
        have h2 : (cur₂.filter (fun t => !(usedInCombo cur₂ t))).filter
            (fun t => !(decide (t ∈ pis₁))) =
            (cur₂.filter (fun t => !(usedInCombo cur₂ t))).filter
            (fun t => !(decide (t ∈ pis₂))) :=
          List.filter_congr (fun t _ => by
            rw [decide_eq_decide.mpr (List.Perm.mem_iff hp)])
        rw [h2] at h1
        exact h1
      by_cases hne : (dedupList (comboResults cur₁)).isEmpty
      · have he₁ : dedupList (comboResults cur₁) = [] := List.isEmpty_iff.mp hne
        have he₂ : dedupList (comboResults cur₂) = [] := List.eq_nil_of_length_eq_zero (by
          rw [← hnextp.length_eq, he₁]; rfl)
        rw [if_pos hne, if_pos (by rw [he₂]; rfl)]
        exact hpis'
      · have hne₂ : ¬ (dedupList (comboResults cur₂)).isEmpty = true := by
          intro h
          have h0 := List.isEmpty_iff.mp h
          rw [List.isEmpty_iff] at hne
          exact hne (List.eq_nil_of_length_eq_zero (by rw [hnextp.length_eq, h0]; rfl))
        rw [if_neg hne, if_neg hne₂]
        refine ih _ _ _ _ hpis' hnextp (nodup_dedupList _) ?_
        intro t ht
        rw [mem_dedupList, mem_comboResults_iff cur₁ hnd n hlen] at ht
        obtain ⟨a, ha, b, hb, hcb⟩ := ht
        exact (combineTerms_length a b t hcb).trans (hlen a ha)

/-- C6: `solveQuineMcCluskey` is deterministic and order-independent —
two duplicate-free minterm lists with the same set of values yield the
same term sequence, and that sequence is sorted in ascending
lexicographic order. -/
theorem solveQuineMcCluskey_deterministic (n : Nat) (hn : 1 ≤ n) (l₁ l₂ : List Nat)
    (h₁ : l₁.Nodup) (h₂ : l₂.Nodup) (hr : ∀ m ∈ l₁, m < 2 ^ n)
    (hs : ∀ x, x ∈ l₁ ↔ x ∈ l₂) :
    solveQuineMcCluskey n l₁ = solveQuineMcCluskey n l₂ ∧
    List.Sorted (fun a b : Term => a ≤ b) (solveQuineMcCluskey n l₁) := by
  have hperm : List.Perm l₁ l₂ := (List.perm_ext_iff_of_nodup h₁ h₂).mpr hs
  have hlen : l₁.length = l₂.length := hperm.length_eq
  constructor
  · unfold solveQuineMcCluskey
    rw [← hlen]
    by_cases he : l₁.length = 0
    · rw [if_pos he, if_pos he]
    · rw [if_neg he, if_neg he]
      by_cases hf : l₁.length = 2 ^ n
      · rw [if_pos hf, if_pos hf]
      · rw [if_neg hf, if_neg hf]
        have hgperm : List.Perm (dedupList (l₁.map (fun m => natToBits n m)))
            (dedupList (l₂.map (fun m => natToBits n m))) := by
          apply dedupList_perm_of_perm
          intro x
          rw [List.mem_map, List.mem_map]
          constructor
          · rintro ⟨m, hm, rfl⟩
            exact ⟨m, (hs m).mp hm, rfl⟩
          · rintro ⟨m, hm, rfl⟩
            exact ⟨m, (hs m).mpr hm, rfl⟩
        have hglen : ∀ t ∈ dedupList (l₁.map (fun m => natToBits n m)), t.length = n := by
          intro t ht
          rw [mem_dedupList, List.mem_map] at ht
          obtain ⟨m, _, rfl⟩ := ht
          exact length_natToBits n m
        have hloop := qmLoop_perm n (n + 1) [] []
          (dedupList (l₁.map (fun m => natToBits n m)))
          (dedupList (l₂.map (fun m => natToBits n m)))
          (List.Perm.refl []) hgperm (nodup_dedupList _) hglen
        apply List.eq_of_perm_of_sorted
          (r := fun a b : Term => a ≤ b)
        · exact (List.perm_insertionSort _ _).trans
            (hloop.trans (List.perm_insertionSort _ _).symm)
        · exact List.sorted_insertionSort _ _
        · exact List.sorted_insertionSort _ _
  · unfold solveQuineMcCluskey
    by_cases he : l₁.length = 0
    · rw [if_pos he]
      exact List.sorted_nil
    · rw [if_neg he]
      by_cases hf : l₁.length = 2 ^ n
      · rw [if_pos hf]
        exact List.sorted_singleton _
      · rw [if_neg hf]
        exact List.sorted_insertionSort _ _

/-- Witness for C6 on the two orderings of the XOR minterm set `{1,2}`. -/
theorem solveQuineMcCluskey_deterministic_witness :
    solveQuineMcCluskey 2 [1, 2] = solveQuineMcCluskey 2 [2, 1] ∧
    List.Sorted (fun a b : Term => a ≤ b) (solveQuineMcCluskey 2 [1, 2]) :=
  solveQuineMcCluskey_deterministic 2 (by decide) [1, 2] [2, 1] (by decide) (by decide)
    (by decide) (fun x => by simp [or_comm])

/-! ### C8: project-load validation -/

/-- C8: a persisted document is accepted iff both `nodes` and `wires` are
present as sequences; every rejected load (validation failure or parse
failure) leaves the previous in-memory model — nodes, wires, camera and
selection — unchanged. -/
theorem handleLoadProject_validates (m : AppModel) (parsed : Option RawDoc) :
    ((handleLoadProject m parsed).2 = true ↔
      ∃ d ns ws, parsed = some d ∧ d.nodes = JField.array ns ∧ d.wires = JField.array ws) ∧
    ((handleLoadProject m parsed).2 = false → (handleLoadProject m parsed).1 = m) := by
  cases parsed with
  | none =>
    constructor
    · simp [handleLoadProject]
    · intro _
      rfl
  | some d =>
    rcases d with ⟨nf, wf, cam⟩
    cases nf <;> cases wf <;> simp [handleLoadProject]

/-- Witness for C8: a failed parse leaves a concrete model unchanged. -/
theorem handleLoadProject_validates_witness :
    (handleLoadProject
      { nodes := [], wires := [], camera := (0, 0, 1), selectedNodeIds := [],
        selectedWireIds := [] } none).1 =
      { nodes := [], wires := [], camera := (0, 0, 1), selectedNodeIds := [],
        selectedWireIds := [] } :=
  (handleLoadProject_validates
    { nodes := [], wires := [], camera := (0, 0, 1), selectedNodeIds := [],
      selectedWireIds := [] } none).2 rfl

/-! ### C10: synthesizer input-switch count and literal-access bounds -/

theorem length_genInputNodes (numVars : Nat) (startPos : ℚ × ℚ) :
    (genInputNodes numVars startPos).length = min numVars 4 := by
  simp [genInputNodes]

theorem genInputNodes_types (numVars : Nat) (startPos : ℚ × ℚ) :
    ∀ n ∈ genInputNodes numVars startPos, n.type = GateType.INPUT_SWITCH := by
  intro n hn
  simp only [genInputNodes, List.mem_map] at hn
  obtain ⟨p, _, rfl⟩ := hn
  rfl

theorem genNotEntries_types (terms : List Term) (startPos : ℚ × ℚ)
    (inputs : List CircuitNode) :
    ∀ e ∈ genNotEntries terms startPos inputs, e.2.1.type = GateType.NOT := by
  intro e he
  simp only [genNotEntries, List.mem_filterMap] at he
  obtain ⟨p, _, hp⟩ := he
  by_cases h : needsNotIdx terms p.1 = true
  · rw [if_pos h] at hp
    cases hp
    rfl
  · rw [if_neg h] at hp
    cases hp

theorem processTerms_types (inputs : List CircuitNode)
    (notMap : List (Nat × CircuitNode)) (numVars total : Nat) (andColX : ℚ) :
    ∀ (ts : List Term) (idx : Nat) (acc : List TermOutput),
      ∀ nd ∈ (processTerms inputs notMap numVars total andColX idx ts acc).2.1,
        nd.type = GateType.AND := by
  intro ts
  induction ts with
  | nil =>
    intro idx acc nd hnd
    simp [processTerms] at hnd
  | cons t rest ih =>
    intro idx acc nd hnd
    simp only [processTerms] at hnd
    split at hnd
    · exact ih _ _ nd hnd
    · split at hnd
      · exact ih _ _ nd hnd
      · split at hnd
        · exact ih _ _ nd hnd
        · rcases List.mem_cons.mp hnd with h | h
          · rw [h]
          · exact ih _ _ nd h

theorem filter_switch_inputs (numVars : Nat) (startPos : ℚ × ℚ) :
    (genInputNodes numVars startPos).filter
      (fun n => decide (n.type = GateType.INPUT_SWITCH))
      = genInputNodes numVars startPos :=
  List.filter_eq_self.mpr (fun a ha => by
    simp [genInputNodes_types numVars startPos a ha])

theorem generateCircuitFromTerms_switch_count (numVars : Nat) (terms : List Term)
    (startPos : ℚ × ℚ) :
    ((generateCircuitFromTerms numVars terms startPos).1.filter
      (fun n => decide (n.type = GateType.INPUT_SWITCH))).length = min numVars 4 := by
  have hnot : ∀ a ∈ (genNotEntries terms startPos (genInputNodes numVars startPos)).map
      (fun e => e.2.1), ¬ ((fun n => decide (n.type = GateType.INPUT_SWITCH)) a = true) := by
    intro a ha
    simp only [List.mem_map] at ha
    obtain ⟨e, he, rfl⟩ := ha
    simp [genNotEntries_types terms startPos _ e he]
  have hand : ∀ idx acc, ∀ a ∈ (processTerms (genInputNodes numVars startPos)
      ((genNotEntries terms startPos (genInputNodes numVars startPos)).map
        (fun e => (e.1, e.2.1)))
      numVars terms.length (startPos.1 + 180 * 2) idx terms acc).2.1,
      ¬ ((fun n => decide (n.type = GateType.INPUT_SWITCH)) a = true) := by
    intro idx acc a ha
    simp [processTerms_types _ _ _ _ _ terms idx acc a ha]
  simp only [generateCircuitFromTerms]
  split
  · simp only [List.filter_append, List.length_append,
      List.filter_eq_nil_iff.mpr hnot, List.filter_eq_nil_iff.mpr (hand 0 [])]
    simp [filter_switch_inputs, length_genInputNodes]
  · simp only [List.filter_append, List.length_append,
      List.filter_eq_nil_iff.mpr hnot, List.filter_eq_nil_iff.mpr (hand 0 [])]
    simp [filter_switch_inputs, length_genInputNodes]
  · simp only [List.filter_append, List.length_append,
      List.filter_eq_nil_iff.mpr hnot, List.filter_eq_nil_iff.mpr (hand 0 [])]
    simp [filter_switch_inputs, length_genInputNodes]

/-- C10: the synthesizer creates exactly `min(numVars, 4)` INPUT_SWITCH
elements, because the label list is hard-truncated to A, B, C, D; when
`numVars <= 4` there is one switch per variable and every direct
`inputs[i]` access made while wiring the `'1'` literals of a term is
within the bounds of the created switch list, whereas when
`numVars >= 5` only 4 switches exist, so a `'1'` literal at position
`i >= 4` indexes past the end of that list (the access yields the
out-of-bounds placeholder; in JS it would dereference `undefined`). -/
theorem generateCircuitFromTerms_input_bounds
    (numVars : Nat) (terms : List Term) (startPos : ℚ × ℚ)
    (hlen : ∀ t ∈ terms, t.length = numVars) :
    ((generateCircuitFromTerms numVars terms startPos).1.filter
        (fun n => decide (n.type = GateType.INPUT_SWITCH))).length = min numVars 4
    ∧ (numVars ≤ 4 →
        min numVars 4 = numVars ∧
        ∀ t ∈ terms, ∀ i ∈ oneLiteralIndices t,
          i < (genInputNodes numVars startPos).length)
    ∧ (5 ≤ numVars →
        min numVars 4 = 4 ∧
        ∀ t ∈ terms, ∀ i ∈ oneLiteralIndices t, 4 ≤ i →
          (genInputNodes numVars startPos).length ≤ i ∧
          (genInputNodes numVars startPos).getD i dummyNode = dummyNode) := by
  refine ⟨generateCircuitFromTerms_switch_count numVars terms startPos, ?_, ?_⟩
  · intro h4
    refine ⟨Nat.min_eq_left h4, ?_⟩
    intro t ht i hi
    have hit : i < t.length := by
      have := (List.mem_filter.mp hi).1
      exact List.mem_range.mp this
    rw [length_genInputNodes, Nat.min_eq_left h4]
    rw [hlen t ht] at hit
    exact hit
  · intro h5
    have hmin : min numVars 4 = 4 := Nat.min_eq_right (by omega)
    refine ⟨hmin, ?_⟩
    intro t ht i hi h4i
    have hlen4 : (genInputNodes numVars startPos).length ≤ i := by
      rw [length_genInputNodes, hmin]; exact h4i
    exact ⟨hlen4, List.getD_eq_default _ _ hlen4⟩

theorem generateCircuitFromTerms_input_bounds_witness :
    (∀ t ∈ [['1','1','0','-','1']], List.length t = 5) ∧
    (((generateCircuitFromTerms 5 [['1','1','0','-','1']] (0, 0)).1.filter
        (fun n => decide (n.type = GateType.INPUT_SWITCH))).length = min 5 4
     ∧ (5 ≤ 4 →
         min 5 4 = 5 ∧
         ∀ t ∈ [['1','1','0','-','1']], ∀ i ∈ oneLiteralIndices t,
           i < (genInputNodes 5 (0, 0)).length)
     ∧ (5 ≤ 5 →
         min 5 4 = 4 ∧
         ∀ t ∈ [['1','1','0','-','1']], ∀ i ∈ oneLiteralIndices t, 4 ≤ i →
           (genInputNodes 5 (0, 0)).length ≤ i ∧
           (genInputNodes 5 (0, 0)).getD i dummyNode = dummyNode)) :=
  ⟨by decide, generateCircuitFromTerms_input_bounds 5 [['1','1','0','-','1']] (0, 0) (by decide)⟩

end LG
